import Mathlib

/-!
Verification of the LMDB index range-planning and range-execution core
(`filter-using-index.ts`).

The development shallowly embeds the data model and the functions of the
source file: filter clauses, the specificity classifier, per-field range
extraction (`extractRanges`, `findRangeEdge`), multi-field range composition
(`getIndexRanges` with a cartesian product), the range executor
(`performRangeScan`), the full-scan fallback (`performFullScan`), the
count path (`countUsingIndex`) and the sentinel edge arithmetic
(`getValueEdgeAfter`, `getValueEdgeBefore`).

JavaScript specifics are made explicit:
  - exceptions become `Except String`;
  - the mutable `usedQueries : Set<DbQuery>` (object identity) becomes an
    explicit `Finset Nat` of clause identifiers threaded through calls;
  - the nullish-coalescing operator `a ?? b` becomes an explicit test
    (`isNullish`) distinguishing a missing result from a `null` value,
    which the source conflates at the `??` use sites;
  - JavaScript truthiness of `limit` becomes `limit = some n` with `n` not 0.

Collaborators that are not part of the source file (the key-value engine,
`GatsbyIterable.deduplicate`, `cartesianProduct` from `./common`, the
ordered-binary key order) are modelled from the spec where a claim needs
them; each such definition carries a doc comment saying so.
-/

deriving instance DecidableEq for Except

/-- Comparators of filter clauses (`DbComparator` in the source). `NE` and
`NIN` are present but never index-usable. -/
inductive DbComparator
  | EQ
  | IN
  | GTE
  | LTE
  | GT
  | LT
  | NE
  | NIN
deriving DecidableEq, Repr

/-- One element of an operand array: a scalar, `null`, or `nonScalar`
standing for a nested array or a non-null object. The code never inspects
such an element beyond `typeof item` inside `toIndexFieldValue`, which
rejects every non-null object (nested arrays included), so collapsing them
into one constructor is observationally faithful. -/
inductive FilterAtom
  | null
  | int (n : Int)
  | str (s : String)
  | bool (b : Bool)
  | nonScalar
deriving DecidableEq, Repr

/-- Values appearing in filter clauses (`DbComparatorValue`): scalars,
`null`, arrays, or other (non-null, non-array) objects. The `obj`
constructor stands for any such object; the code only ever checks
`typeof value` and `Array.isArray`, never the object contents. -/
inductive FilterValue
  | null
  | int (n : Int)
  | str (s : String)
  | bool (b : Bool)
  | arr (elems : List FilterAtom)
  | obj
deriving DecidableEq, Repr

/-- Values that may occupy one position of an index key
(`IndexFieldValue` of `create-index`, plus the `undefinedSymbol` marker
used for absent fields). -/
inductive IndexFieldValue
  | null
  | undef
  | int (n : Int)
  | str (s : String)
  | bool (b : Bool)
deriving DecidableEq, Repr

instance : Inhabited IndexFieldValue := ⟨IndexFieldValue.null⟩

/-- One component of a range boundary (`RangeValue` in the source):
a plain field value, the synthetic two-part edges
`[value, BinaryInfinityPositive]` and `[undefinedSymbol, value]`, or one
of the two binary infinities. -/
inductive RangeValue
  | val (v : IndexFieldValue)
  | edgeAfter (v : IndexFieldValue)
  | edgeBefore (v : IndexFieldValue)
  | posInf
  | negInf
deriving DecidableEq, Repr

/-- A filter statement (`IDbFilterStatement`): a comparator and its operand. -/
structure IDbFilterStatement where
  comparator : DbComparator
  value : FilterValue
deriving DecidableEq, Repr

/-- A filter clause (`DbQuery`). The source manipulates clause objects and
uses a `Set<DbQuery>` keyed by object identity; we give every clause an
explicit identifier `id` standing for that identity. The dotted field path
and the filter statement are modelled as plain fields; the source obtains
them through the accessors `dbQueryToDottedField` and `getFilterStatement`
(defined in `../../common/query`, consumed here as plain projections). -/
structure DbQuery where
  id : Nat
  field : String
  filter : IDbFilterStatement
deriving DecidableEq, Repr

/-- Accessor `dbQueryToDottedField` (projection in this model). -/
def dbQueryToDottedField (q : DbQuery) : String := q.field

/-- Accessor `getFilterStatement` (projection in this model). -/
def getFilterStatement (q : DbQuery) : IDbFilterStatement := q.filter

/-- Insertion-ordered content of the `canUseIndex` set: `EQ, IN, GTE, LTE,
GT, LT`. The iteration order of this list is significant: it is the
specificity order used by `sortByFilterSpecificity`. -/
def canUseIndexList : List DbComparator :=
  [DbComparator.EQ, DbComparator.IN, DbComparator.GTE,
   DbComparator.LTE, DbComparator.GT, DbComparator.LT]

/-- Membership test of the `canUseIndex` set. -/
def canUseIndex (c : DbComparator) : Bool := canUseIndexList.contains c

/-- Position of a comparator in the iteration order of `canUseIndex`; the
comparator function of `sortByFilterSpecificity` orders clauses by this
rank (6 for comparators outside the set, which the sort never sees because
the list was filtered by `canUseIndex` first). -/
def specificityRank (c : DbComparator) : Nat :=
  match canUseIndexList.findIdx? (fun d => d == c) with
  | some i => i
  | none => canUseIndexList.length

/-- Stable insertion of a clause into a specificity-sorted list: the
clause goes in front of the first element of strictly larger rank, hence
after nothing of equal rank that it preceded. -/
def insertBySpecificity (q : DbQuery) : List DbQuery → List DbQuery
  | [] => [q]
  | x :: xs =>
    if specificityRank (getFilterStatement x).comparator <
        specificityRank (getFilterStatement q).comparator then
      x :: insertBySpecificity q xs
    else
      q :: x :: xs

/-- Stable insertion sort by specificity rank: the structurally recursive
counterpart of the stable JavaScript `Array.prototype.sort` with the
comparator `sortByFilterSpecificity` (clauses of equal rank keep their
relative order). -/
def sortBySpecificity : List DbQuery → List DbQuery
  | [] => []
  | x :: xs => insertBySpecificity x (sortBySpecificity xs)

/-- Source `getQueriesThatCanUseIndex`: keep the clauses whose comparator
is index-usable and stable-sort them by specificity. -/
def getQueriesThatCanUseIndex (all : List DbQuery) : List DbQuery :=
  sortBySpecificity (all.filter fun q => canUseIndex (getFilterStatement q).comparator)

/-- Source `getValueEdgeAfter`: the boundary `[value, BinaryInfinityPositive]`,
just after every key beginning with the value. -/
def getValueEdgeAfter (value : IndexFieldValue) : RangeValue :=
  RangeValue.edgeAfter value

/-- Source `getValueEdgeBefore`: the boundary `[undefinedSymbol, value]`. -/
def getValueEdgeBefore (value : IndexFieldValue) : RangeValue :=
  RangeValue.edgeBefore value

/-- The `ValueEdges` enum of the source (BEFORE = -1, NONE = 0, AFTER = 1). -/
inductive ValueEdges
  | BEFORE
  | NONE
  | AFTER
deriving DecidableEq, Repr

/-- Conversion of a scalar filter value into an index field value; `none`
for arrays and objects (for which the source code paths throw). -/
def scalarValue : FilterValue → Option IndexFieldValue
  | FilterValue.null => some IndexFieldValue.null
  | FilterValue.int n => some (IndexFieldValue.int n)
  | FilterValue.str s => some (IndexFieldValue.str s)
  | FilterValue.bool b => some (IndexFieldValue.bool b)
  | FilterValue.arr _ => none
  | FilterValue.obj => none

/-- Source `Array.isArray` test on a filter value. -/
def isArrayValue : FilterValue → Bool
  | FilterValue.arr _ => true
  | _ => false

/-- Source `toIndexFieldValue`: scalars pass through, non-null objects
(arrays included, since `typeof [] = object` holds) throw. -/
def toIndexFieldValue (filterValue : FilterValue) : Except String IndexFieldValue :=
  match scalarValue filterValue with
  | some v => Except.ok v
  | none => Except.error "Bad filter value"

/-- Scalar view of an operand-array element; `none` for the non-scalar
elements that `toIndexFieldValue` rejects. -/
def atomScalarValue : FilterAtom → Option IndexFieldValue
  | FilterAtom.null => some IndexFieldValue.null
  | FilterAtom.int n => some (IndexFieldValue.int n)
  | FilterAtom.str s => some (IndexFieldValue.str s)
  | FilterAtom.bool b => some (IndexFieldValue.bool b)
  | FilterAtom.nonScalar => none

/-- Source `toIndexFieldValue` applied to an element of an operand array. -/
def toIndexFieldValueAtom (item : FilterAtom) : Except String IndexFieldValue :=
  match atomScalarValue item with
  | some v => Except.ok v
  | none => Except.error "Bad filter value"

/-- View of a non-array operand as an operand-array element, used when the
`EQ`/`IN` branch wraps a non-array operand into a singleton array. -/
def FilterValue.toAtom : FilterValue → FilterAtom
  | FilterValue.null => FilterAtom.null
  | FilterValue.int n => FilterAtom.int n
  | FilterValue.str s => FilterAtom.str s
  | FilterValue.bool b => FilterAtom.bool b
  | FilterValue.arr _ => FilterAtom.nonScalar
  | FilterValue.obj => FilterAtom.nonScalar

/-- The operand list of the `EQ`/`IN` branch: the expression
`Array.isArray(filter.value) ? filter.value : [filter.value]` of the
source. -/
def operandList : FilterValue → List FilterAtom
  | FilterValue.arr xs => xs
  | v => [v.toAtom]

/-- Application of a `ValueEdges` selector exactly as in the return of
`findRangeEdge`: 0 returns the value itself, negative the edge before,
positive the edge after. -/
def edgeApply (edge : ValueEdges) (v : IndexFieldValue) : RangeValue :=
  match edge with
  | ValueEdges.NONE => RangeValue.val v
  | ValueEdges.BEFORE => getValueEdgeBefore v
  | ValueEdges.AFTER => getValueEdgeAfter v

/-- JavaScript nullish test over the result of `findRangeEdge`: the
operator `a ?? b` treats both `undefined` (here `none`) and the raw value
`null` (here `some (val null)`) as missing. Edge values are arrays in the
source and therefore never nullish. -/
def isNullish : Option RangeValue → Bool
  | none => true
  | some (RangeValue.val IndexFieldValue.null) => true
  | some _ => false

/-- Source `findRangeEdge`: walk the field clauses, skip clauses already
used, take the first one with the requested comparator, mark it used,
reject array and object operands, and return the operand transformed by
the requested edge selector. Returns the updated used set because the
source mutates `usedQueries` in place. -/
def findRangeEdge (queries : List DbQuery) (usedQueries : Finset Nat)
    (comparator : DbComparator) (edge : ValueEdges) :
    Except String (Finset Nat × Option RangeValue) :=
  match queries with
  | [] => Except.ok (usedQueries, none)
  | dbQuery :: rest =>
    if dbQuery.id ∈ usedQueries then
      findRangeEdge rest usedQueries comparator edge
    else if (getFilterStatement dbQuery).comparator ≠ comparator then
      findRangeEdge rest usedQueries comparator edge
    else if isArrayValue (getFilterStatement dbQuery).value then
      Except.error "Range filter should not have array value"
    else
      match scalarValue (getFilterStatement dbQuery).value with
      | none => Except.error "Range filter should not have value of type object"
      | some v =>
        Except.ok (insert dbQuery.id usedQueries, some (edgeApply edge v))

/-- The value loop of the `EQ`/`IN` branch of `extractRanges`: convert each
operand item, push the pair `(value, edgeAfter value)`, and remember
whether some item was `null`. -/
def eqInLoop : List FilterAtom → Except String (List RangeValue × List RangeValue × Bool)
  | [] => Except.ok ([], [], false)
  | item :: rest =>
    match toIndexFieldValueAtom item with
    | Except.error e => Except.error e
    | Except.ok value =>
      match eqInLoop rest with
      | Except.error e => Except.error e
      | Except.ok (starts, ends, hasNull) =>
        Except.ok (RangeValue.val value :: starts, getValueEdgeAfter value :: ends,
          (decide (value = IndexFieldValue.null)) || hasNull)

/-- Result of `extractRanges` for one index field: the clauses it consumed
and the parallel lists of start and end boundary values. -/
structure ExtractResult where
  usedQueries : Finset Nat
  rangeStarts : List RangeValue
  rangeEndings : List RangeValue
deriving DecidableEq

/-- The `EQ`/`IN` switch branch of `extractRanges`: push one
`(value, edgeAfter value)` pair per operand item and append the
`undefinedSymbol` pair when some item was `null`. -/
def extractEqIn (used : Finset Nat) (filter : IDbFilterStatement) :
    Except String ExtractResult :=
  match eqInLoop (operandList filter.value) with
  | Except.error e => Except.error e
  | Except.ok (starts, ends, hasNull) =>
    if hasNull then
      Except.ok ⟨used, starts ++ [RangeValue.val IndexFieldValue.undef],
        ends ++ [getValueEdgeAfter IndexFieldValue.undef]⟩
    else
      Except.ok ⟨used, starts, ends⟩

/-- The `LT`/`LTE` switch branch of `extractRanges`: the end bound comes
from the anchor value, the start bound from a complementary `GTE` or `GT`
clause through nullish coalescing, with the default lower rail otherwise. -/
def extractLtLte (fieldQueries : List DbQuery) (used : Finset Nat)
    (filter : IDbFilterStatement) : Except String ExtractResult :=
  if isArrayValue filter.value then
    Except.error "LT LTE value must not be an array"
  else
    match toIndexFieldValue filter.value with
    | Except.error e => Except.error e
    | Except.ok value =>
      let endValue := if filter.comparator = DbComparator.LT then
          RangeValue.val value
        else getValueEdgeAfter value
      match findRangeEdge fieldQueries used DbComparator.GTE ValueEdges.NONE with
      | Except.error e => Except.error e
      | Except.ok (used1, gteRes) =>
        match (if isNullish gteRes then
            findRangeEdge fieldQueries used1 DbComparator.GT ValueEdges.AFTER
          else Except.ok (used1, gteRes)) with
        | Except.error e => Except.error e
        | Except.ok (used2, startRes) =>
          let rangeHead := if value = IndexFieldValue.null then
              RangeValue.negInf
            else getValueEdgeAfter IndexFieldValue.undef
          let startValue := if isNullish startRes then rangeHead
            else startRes.getD rangeHead
          Except.ok ⟨used2, [startValue], [endValue]⟩

/-- The `GT`/`GTE` switch branch of `extractRanges`: the start bound comes
from the anchor value, the end bound from a complementary `LTE` or `LT`
clause through nullish coalescing, with the default upper rail otherwise. -/
def extractGtGte (fieldQueries : List DbQuery) (used : Finset Nat)
    (filter : IDbFilterStatement) : Except String ExtractResult :=
  if isArrayValue filter.value then
    Except.error "GT GTE value must not be an array"
  else
    match toIndexFieldValue filter.value with
    | Except.error e => Except.error e
    | Except.ok value =>
      let startValue := if filter.comparator = DbComparator.GTE then
          RangeValue.val value
        else getValueEdgeAfter value
      match findRangeEdge fieldQueries used DbComparator.LTE ValueEdges.AFTER with
      | Except.error e => Except.error e
      | Except.ok (used1, lteRes) =>
        match (if isNullish lteRes then
            findRangeEdge fieldQueries used1 DbComparator.LT ValueEdges.NONE
          else Except.ok (used1, lteRes)) with
        | Except.error e => Except.error e
        | Except.ok (used2, endRes) =>
          let rangeTail := if value = IndexFieldValue.null then
              getValueEdgeAfter IndexFieldValue.null
            else RangeValue.posInf
          let endValue := if isNullish endRes then rangeTail
            else endRes.getD rangeTail
          Except.ok ⟨used2, [startValue], [endValue]⟩

/-- Source `extractRanges`: select the clauses of the given field, anchor
on the first one (the lists fed by `getIndexRanges` are specificity
sorted), reject an `IN` whose operand is not an array before anything is
pushed, and dispatch on the anchor comparator to the switch branch; the
branches are the three preceding definitions, split out of the switch for
compositional reasoning. -/
def extractRanges (queries : List DbQuery) (indexField : String) :
    Except String ExtractResult :=
  match queries.filter fun q => dbQueryToDottedField q == indexField with
  | [] => Except.ok ⟨∅, [], []⟩
  | bestMatchingQuery :: rest =>
    let used : Finset Nat := {bestMatchingQuery.id}
    let filter := getFilterStatement bestMatchingQuery
    if filter.comparator = DbComparator.IN ∧ ¬ (isArrayValue filter.value = true) then
      Except.error "The argument to the in comparator should be an array"
    else
      match filter.comparator with
      | DbComparator.EQ | DbComparator.IN => extractEqIn used filter
      | DbComparator.LT | DbComparator.LTE =>
        extractLtLte (bestMatchingQuery :: rest) used filter
      | DbComparator.GT | DbComparator.GTE =>
        extractGtGte (bestMatchingQuery :: rest) used filter
      | _ => Except.error "Unsupported comparator"

/-- Modelled from the spec: `cartesianProduct` lives in `./common`, which
is not part of the included source. The spec states that the composer
computes the cartesian product of the per-field boundary lists with the
declared (outer) field varying slowest, the base case being the single
empty tuple. -/
def cartesianProduct {α : Type} : List (List α) → List (List α)
  | [] => [[]]
  | l :: ls => l.flatMap fun x => (cartesianProduct ls).map fun t => x :: t

/-- One composed scan region (`IIndexRange` in the source); `stop` models
the source field `end`, which is a reserved word here. -/
structure IIndexRange where
  start : List RangeValue
  stop : List RangeValue
deriving DecidableEq, Repr

/-- The field loop of `getIndexRanges`: extract per-field boundaries in
declared index order, stop (without error) at the first field yielding no
constraint, discarding the used set of that field, and collect the
per-field start and end lists together with the union of the used sets. -/
def getIndexRangesLoop (sorted : List DbQuery) :
    List String → Except String (Finset Nat × List (List RangeValue) × List (List RangeValue))
  | [] => Except.ok (∅, [], [])
  | indexField :: restFields =>
    match extractRanges sorted indexField with
    | Except.error e => Except.error e
    | Except.ok result =>
      if result.rangeStarts.isEmpty then
        Except.ok (∅, [], [])
      else
        match getIndexRangesLoop sorted restFields with
        | Except.error e => Except.error e
        | Except.ok (used, starts, ends) =>
          Except.ok (result.usedQueries ∪ used, result.rangeStarts :: starts,
            result.rangeEndings :: ends)

/-- Result of planning (`usedQueries` plus the composed ranges). -/
structure PlanResult where
  usedQueries : Finset Nat
  ranges : List IIndexRange
deriving DecidableEq

/-- Source `getIndexRanges`: classify and sort the clauses, run the field
loop, and when at least one field produced a constraint pair the cartesian
product of the start lists with the cartesian product of the end lists in
lock step. The lock-step pairing is written with `zipWith`; the products
have equal length for every input (proved below), so nothing is truncated. -/
def getIndexRanges (dbQueries : List DbQuery) (indexFields : List String) :
    Except String PlanResult :=
  match getIndexRangesLoop (getQueriesThatCanUseIndex dbQueries) indexFields with
  | Except.error e => Except.error e
  | Except.ok (used, rangeStarts, rangeEndings) =>
    if rangeStarts.isEmpty then
      Except.ok ⟨used, []⟩
    else
      Except.ok ⟨used, List.zipWith (fun s e => ⟨s, e⟩)
        (cartesianProduct rangeStarts) (cartesianProduct rangeEndings)⟩

/-- One scanned index entry (`IIndexEntry`): the composite key and the
document identifier value. -/
structure IIndexEntry where
  key : List IndexFieldValue
  value : String
deriving DecidableEq, Repr, Inhabited

/-- Source `getIdentifier`: the last component of the index key, which
must be numeric or a string. An empty key yields `undefined` in
JavaScript, which also fails the type test. -/
def getIdentifier (entry : IIndexEntry) : Except String IndexFieldValue :=
  match entry.key.getLast? with
  | some (IndexFieldValue.int n) => Except.ok (IndexFieldValue.int n)
  | some (IndexFieldValue.str s) => Except.ok (IndexFieldValue.str s)
  | _ => Except.error "Last element of index key is expected to be numeric or string id"

/-- Modelled from the spec: `GatsbyIterable.deduplicate` lives in
`../../common/iterable`, which is not part of the included source. Per the
spec the executor deduplicates by document identifier, keeping the first
occurrence of each identifier; identifier extraction may throw
(`getIdentifier`), which surfaces while iterating. `seen` accumulates the
identifiers already emitted. -/
def deduplicate (getKey : IIndexEntry → Except String IndexFieldValue)
    (seen : List IndexFieldValue) :
    List IIndexEntry → Except String (List IIndexEntry)
  | [] => Except.ok []
  | e :: rest =>
    match getKey e with
    | Except.error err => Except.error err
    | Except.ok k =>
      if seen.contains k then
        deduplicate getKey seen rest
      else
        match deduplicate getKey (k :: seen) rest with
        | Except.error err => Except.error err
        | Except.ok tail => Except.ok (e :: tail)

/-- Identifier of an entry as an optional value, for stating dedup facts. -/
def entryId (e : IIndexEntry) : Option IndexFieldValue :=
  (getIdentifier e).toOption

/-- One request issued to the key-value engine (`indexes.getRange`
argument): boundaries with the index identifier already prepended, the
limit and offset actually used, and the reverse flag. `stop` models the
source field `end`. -/
structure ScanRange where
  start : List RangeValue
  stop : List RangeValue
  limit : Option Nat
  offset : Nat
  reverse : Bool
deriving DecidableEq, Repr, Inhabited

/-- Result of `performRangeScan`. The engine calls of the source are made
observable: `requests` lists the `getRange` arguments in issue order, and
`entries` is the concatenation of the per-request results, deduplicated
when the index is multi-valued. `usedLimit` and `usedOffset` are the
values the source returns alongside the entries. -/
structure RangeScanOutcome where
  requests : List ScanRange
  entries : List IIndexEntry
  usedQueries : Finset Nat
  usedLimit : Option Nat
  usedOffset : Nat
deriving DecidableEq

/-- Source `performRangeScan`. JavaScript truthiness of `limit` is
`some n` with `n` not 0. Inside the truthy-limit block: more than one
range forces the offset to zero, and a multi-valued index inflates the
limit by `maxKeysPerItem`. Every range is scanned with the index
identifier prepended to both boundaries (reverse scans swap them), the
results are concatenated in range order, and a multi-valued index
deduplicates them by document identifier. -/
def limitTruthy : Option Nat → Bool
  | some n => decide (n ≠ 0)
  | none => false

/-- One `getRange` request of `performRangeScan`: the index identifier is
prepended to both boundaries, and a reverse scan swaps them and sets the
reverse flag. -/
def scanRequest (indexId : IndexFieldValue) (limit1 : Option Nat) (offset1 : Nat)
    (reverse : Bool) (r : IIndexRange) : ScanRange :=
  let s := RangeValue.val indexId :: r.start
  let e := RangeValue.val indexId :: r.stop
  if ¬ reverse then
    ScanRange.mk s e limit1 offset1 false
  else
    ScanRange.mk e s limit1 offset1 true

def performRangeScan (engine : ScanRange → List IIndexEntry)
    (indexId : IndexFieldValue) (maxKeysPerItem : Nat) (reverse : Bool)
    (limit : Option Nat) (offset : Nat) (ranges : List IIndexRange)
    (usedQueries : Finset Nat) : Except String RangeScanOutcome :=
  let offset1 := if limitTruthy limit ∧ ranges.length > 1 then 0 else offset
  let limit1 := if limitTruthy limit ∧ maxKeysPerItem > 1 then
      limit.map (fun l => l * maxKeysPerItem)
    else limit
  let requests := ranges.map (scanRequest indexId limit1 offset1 reverse)
  let raw := (requests.map engine).flatten
  if maxKeysPerItem > 1 then
    match deduplicate getIdentifier [] raw with
    | Except.error e => Except.error e
    | Except.ok entries => Except.ok ⟨requests, entries, usedQueries, limit1, offset1⟩
  else
    Except.ok ⟨requests, raw, usedQueries, limit1, offset1⟩

/-- Result of `performFullScan`: the two engine requests in issue order
and the deduplicated entries. -/
structure FullScanOutcome where
  requests : List ScanRange
  entries : List IIndexEntry
deriving DecidableEq

/-- Source `performFullScan`: two sub-scans over the index partition, one
from just after the `undefinedSymbol` marker to the partition end and one
from the partition start (`[indexName, null]`) to just after the marker,
concatenated so that null and undefined valued entries come last when
ascending (the reverse scan concatenates in the opposite order), then
deduplicated by document identifier. -/
def performFullScan (engine : ScanRange → List IIndexEntry)
    (indexName : IndexFieldValue) (reverse : Bool) :
    Except String FullScanOutcome :=
  let start1 : List RangeValue :=
    [RangeValue.val indexName, getValueEdgeAfter IndexFieldValue.undef]
  let end1 : List RangeValue := [getValueEdgeAfter indexName]
  let range1 := cond reverse (ScanRange.mk end1 start1 none 0 true)
    (ScanRange.mk start1 end1 none 0 false)
  let undefinedToEnd := engine range1
  let end2 := start1
  let start2 : List RangeValue := [RangeValue.val indexName, RangeValue.val IndexFieldValue.null]
  let range2 := cond reverse (ScanRange.mk end2 start2 none 0 true)
    (ScanRange.mk start2 end2 none 0 false)
  let topToUndefined := engine range2
  let combined := cond reverse (topToUndefined ++ undefinedToEnd)
    (undefinedToEnd ++ topToUndefined)
  match deduplicate getIdentifier [] combined with
  | Except.error e => Except.error e
  | Except.ok entries => Except.ok ⟨[range1, range2], entries⟩

/-- The scan dispatch of `filterUsingIndex` (source lines 93 to 99): plan
the ranges, then hand over to `performRangeScan` when at least one range
was composed and to `performFullScan` otherwise. The source call site
`performFullScan(context)` predates the two extra parameters of the
callee; the dispatch is modelled with the index identifier of the context
metadata and the requested direction, matching the callee signature. The
narrowing stage that may follow is outside this model. -/
def scanViaIndex (engine : ScanRange → List IIndexEntry)
    (dbQueries : List DbQuery) (indexFields : List String)
    (indexId : IndexFieldValue) (maxKeysPerItem : Nat)
    (limit : Option Nat) (offset : Nat) (reverse : Bool) :
    Except String (Finset Nat × List ScanRange × List IIndexEntry) :=
  match getIndexRanges dbQueries indexFields with
  | Except.error e => Except.error e
  | Except.ok plan =>
    if plan.ranges.length > 0 then
      match performRangeScan engine indexId maxKeysPerItem reverse limit offset
          plan.ranges plan.usedQueries with
      | Except.error e => Except.error e
      | Except.ok o => Except.ok (plan.usedQueries, o.requests, o.entries)
    else
      match performFullScan engine indexId reverse with
      | Except.error e => Except.error e
      | Except.ok o => Except.ok (plan.usedQueries, o.requests, o.entries)

/-- One request issued to `indexes.getKeysCount`: a pair of boundaries. -/
structure CountRange where
  start : List RangeValue
  stop : List RangeValue
deriving DecidableEq, Repr

/-- Source `countUsingIndex`: plan the ranges; fail when some clause was
not consumed by planning (`usedQueries.size` differs from the clause
count) or when the index is multi-valued; with zero composed ranges count
the whole prefix partition, otherwise sum the per-range key counts with
the index identifier prepended to both boundaries. -/
def countUsingIndex (engineCount : CountRange → Nat)
    (dbQueries : List DbQuery) (indexFields : List String)
    (indexId : IndexFieldValue) (maxKeysPerItem : Nat) :
    Except String Nat :=
  match getIndexRanges dbQueries indexFields with
  | Except.error e => Except.error e
  | Except.ok plan =>
  if plan.usedQueries.card ≠ dbQueries.length then
    Except.error "Cannot count using index. Some field filters cannot be resolved by index."
  else if maxKeysPerItem > 1 then
    Except.error "Cannot count using MultiKey index."
  else if plan.ranges.isEmpty then
    Except.ok (engineCount ⟨[RangeValue.val indexId], [getValueEdgeAfter indexId]⟩)
  else
    Except.ok ((plan.ranges.map fun r =>
      engineCount ⟨RangeValue.val indexId :: r.start, RangeValue.val indexId :: r.stop⟩).sum)

/-- Modelled from the spec: one atom of the ordered-binary encoding
domain. The encoding itself (lmdb ordered-binary) is an external
collaborator; the spec and the source comment document the total order
`BinaryInfinityNegative < null < undefinedSymbol < scalars <
BinaryInfinityPositive`, with numbers before strings among the scalars in
the documented example; booleans are placed with the scalars. -/
inductive KeyAtom
  | negInf
  | null
  | undef
  | bool (b : Bool)
  | int (n : Int)
  | str (s : String)
  | posInf
deriving DecidableEq, Repr

/-- Rank of an atom in the documented total order. -/
def KeyAtom.rank : KeyAtom → Nat
  | KeyAtom.negInf => 0
  | KeyAtom.null => 1
  | KeyAtom.undef => 2
  | KeyAtom.bool _ => 3
  | KeyAtom.int _ => 4
  | KeyAtom.str _ => 5
  | KeyAtom.posInf => 6

/-- Modelled from the spec: strict order on atoms, by rank between the
groups, and by the native scalar orders inside a group. -/
def KeyAtom.ltb : KeyAtom → KeyAtom → Bool
  | KeyAtom.bool x, KeyAtom.bool y => !x && y
  | KeyAtom.int m, KeyAtom.int n => decide (m < n)
  | KeyAtom.str s, KeyAtom.str t => decide (s < t)
  | a, b => decide (a.rank < b.rank)

/-- Modelled from the spec: the ordered-binary key order compares encoded
keys lexicographically, a proper prefix sorting before its extensions. -/
def keyLtb : List KeyAtom → List KeyAtom → Bool
  | [], [] => false
  | [], _ :: _ => true
  | _ :: _, [] => false
  | a :: as, b :: bs => KeyAtom.ltb a b || (decide (a = b) && keyLtb as bs)

/-- Atom of an encodable index field value. -/
def atomOf : IndexFieldValue → KeyAtom
  | IndexFieldValue.null => KeyAtom.null
  | IndexFieldValue.undef => KeyAtom.undef
  | IndexFieldValue.int n => KeyAtom.int n
  | IndexFieldValue.str s => KeyAtom.str s
  | IndexFieldValue.bool b => KeyAtom.bool b

/-- Flattening of a range boundary component into the encoding domain:
the synthetic edges are two-part sequences, exactly as the source builds
them (`[value, BinaryInfinityPositive]` and `[undefinedSymbol, value]`). -/
def RangeValue.flatten : RangeValue → List KeyAtom
  | RangeValue.val v => [atomOf v]
  | RangeValue.edgeAfter v => [atomOf v, KeyAtom.posInf]
  | RangeValue.edgeBefore v => [KeyAtom.undef, atomOf v]
  | RangeValue.posInf => [KeyAtom.posInf]
  | RangeValue.negInf => [KeyAtom.negInf]

/-! ### Helper definitions used by the statements -/

/-- Elementwise conversion of an operand list, collecting the scalar
values so that the facts about the `EQ`/`IN` branch can be stated
directly in terms of the converted values. -/
def mapExceptAtoms : List FilterAtom → Except String (List IndexFieldValue)
  | [] => Except.ok []
  | item :: rest =>
    match toIndexFieldValueAtom item with
    | Except.error e => Except.error e
    | Except.ok v =>
      match mapExceptAtoms rest with
      | Except.error e => Except.error e
      | Except.ok vs => Except.ok (v :: vs)

/-- The first clause of the list with the given comparator that is not
yet in the used set; this is the clause `findRangeEdge` settles on. -/
def findFirstUnused (queries : List DbQuery) (used : Finset Nat)
    (comparator : DbComparator) : Option DbQuery :=
  queries.find? fun q =>
    decide (q.id ∉ used) && ((getFilterStatement q).comparator == comparator)

/-! ### Facts about the per-field extraction -/

lemma eqInLoop_spec (vals : List FilterAtom) (ivals : List IndexFieldValue)
    (h : mapExceptAtoms vals = Except.ok ivals) :
    eqInLoop vals = Except.ok (ivals.map RangeValue.val, ivals.map getValueEdgeAfter,
      ivals.any fun v => decide (v = IndexFieldValue.null)) := by
  induction vals generalizing ivals with
  | nil =>
    simp only [mapExceptAtoms] at h
    cases h
    simp [eqInLoop]
  | cons item rest ih =>
    simp only [mapExceptAtoms] at h
    cases hv : toIndexFieldValueAtom item with
    | error e => rw [hv] at h; exact absurd h (by simp)
    | ok v =>
      rw [hv] at h
      cases hr : mapExceptAtoms rest with
      | error e => rw [hr] at h; exact absurd h (by simp)
      | ok vs =>
        rw [hr] at h
        cases h
        simp [eqInLoop, hv, ih vs hr]

lemma eqInLoop_lengths (vals : List FilterAtom) (starts ends : List RangeValue)
    (hasNull : Bool) (h : eqInLoop vals = Except.ok (starts, ends, hasNull)) :
    starts.length = ends.length := by
  induction vals generalizing starts ends hasNull with
  | nil =>
    simp only [eqInLoop] at h
    cases h
    rfl
  | cons item rest ih =>
    simp only [eqInLoop] at h
    cases hv : toIndexFieldValueAtom item with
    | error e => rw [hv] at h; exact absurd h (by simp)
    | ok v =>
      rw [hv] at h
      cases hr : eqInLoop rest with
      | error e => rw [hr] at h; exact absurd h (by simp)
      | ok triple =>
        obtain ⟨s, e, b⟩ := triple
        rw [hr] at h
        cases h
        simpa using congrArg Nat.succ (ih s e b hr)

lemma findRangeEdge_spec (queries : List DbQuery) (used : Finset Nat)
    (comparator : DbComparator) (edge : ValueEdges) :
    findRangeEdge queries used comparator edge =
      match findFirstUnused queries used comparator with
      | none => Except.ok (used, none)
      | some q =>
        if isArrayValue (getFilterStatement q).value then
          Except.error "Range filter should not have array value"
        else
          match scalarValue (getFilterStatement q).value with
          | none => Except.error "Range filter should not have value of type object"
          | some v => Except.ok (insert q.id used, some (edgeApply edge v)) := by
  induction queries with
  | nil => simp [findRangeEdge, findFirstUnused]
  | cons q rest ih =>
    by_cases hmem : q.id ∈ used
    · simp [findRangeEdge, findFirstUnused, List.find?_cons, hmem] at ih ⊢
      exact ih
    · by_cases hcmp : (getFilterStatement q).comparator = comparator
      · simp [findRangeEdge, findFirstUnused, List.find?_cons, hmem, hcmp]
      · simp [findRangeEdge, findFirstUnused, List.find?_cons, hmem, hcmp] at ih ⊢
        exact ih


lemma extractRanges_cons (queries : List DbQuery) (indexField : String)
    (best : DbQuery) (rest : List DbQuery)
    (hfq : (queries.filter fun q => dbQueryToDottedField q == indexField) = best :: rest) :
    extractRanges queries indexField =
      if (getFilterStatement best).comparator = DbComparator.IN ∧
          ¬ (isArrayValue (getFilterStatement best).value = true) then
        Except.error "The argument to the in comparator should be an array"
      else
        match (getFilterStatement best).comparator with
        | DbComparator.EQ | DbComparator.IN =>
          extractEqIn {best.id} (getFilterStatement best)
        | DbComparator.LT | DbComparator.LTE =>
          extractLtLte (best :: rest) {best.id} (getFilterStatement best)
        | DbComparator.GT | DbComparator.GTE =>
          extractGtGte (best :: rest) {best.id} (getFilterStatement best)
        | _ => Except.error "Unsupported comparator" := by
  unfold extractRanges
  rw [hfq]

lemma extractRanges_nil (queries : List DbQuery) (indexField : String)
    (hfq : (queries.filter fun q => dbQueryToDottedField q == indexField) = []) :
    extractRanges queries indexField = Except.ok ⟨∅, [], []⟩ := by
  unfold extractRanges
  rw [hfq]

lemma extractEqIn_spec (used : Finset Nat) (filter : IDbFilterStatement)
    (ivals : List IndexFieldValue)
    (h : mapExceptAtoms (operandList filter.value) = Except.ok ivals) :
    extractEqIn used filter =
      Except.ok ⟨used,
        ivals.map RangeValue.val ++
          (if ivals.any (fun v => decide (v = IndexFieldValue.null)) then
            [RangeValue.val IndexFieldValue.undef] else []),
        ivals.map getValueEdgeAfter ++
          (if ivals.any (fun v => decide (v = IndexFieldValue.null)) then
            [getValueEdgeAfter IndexFieldValue.undef] else [])⟩ := by
  unfold extractEqIn
  rw [eqInLoop_spec _ _ h]
  by_cases hnull : (ivals.any fun v => decide (v = IndexFieldValue.null)) = true
  · simp [hnull]
  · rw [Bool.not_eq_true] at hnull
    simp [hnull]

lemma extractEqIn_shape (used : Finset Nat) (filter : IDbFilterStatement)
    (r : ExtractResult) (h : extractEqIn used filter = Except.ok r) :
    r.usedQueries = used ∧ r.rangeStarts.length = r.rangeEndings.length := by
  unfold extractEqIn at h
  cases hloop : eqInLoop (operandList filter.value) with
  | error e => rw [hloop] at h; exact absurd h (by simp)
  | ok triple =>
    obtain ⟨starts, ends, hasNull⟩ := triple
    rw [hloop] at h
    have hlen := eqInLoop_lengths _ _ _ _ hloop
    by_cases hn : hasNull = true
    · rw [hn] at h
      simp only [if_true] at h
      cases h
      simp [hlen]
    · rw [Bool.not_eq_true] at hn
      rw [hn] at h
      simp only [Bool.false_eq_true, if_false] at h
      cases h
      exact ⟨rfl, hlen⟩

lemma extractLtLte_shape (fieldQueries : List DbQuery) (used : Finset Nat)
    (filter : IDbFilterStatement) (r : ExtractResult)
    (h : extractLtLte fieldQueries used filter = Except.ok r) :
    ∃ u s e, r = ⟨u, [s], [e]⟩ := by
  unfold extractLtLte at h
  split at h
  · exact absurd h (by simp)
  · cases hval : toIndexFieldValue filter.value with
    | error e => rw [hval] at h; exact absurd h (by simp)
    | ok value =>
      rw [hval] at h
      dsimp only at h
      cases h1 : findRangeEdge fieldQueries used DbComparator.GTE ValueEdges.NONE with
      | error e => rw [h1] at h; exact absurd h (by simp)
      | ok p1 =>
        obtain ⟨used1, gteRes⟩ := p1
        rw [h1] at h
        dsimp only at h
        cases h2 : (if isNullish gteRes then
            findRangeEdge fieldQueries used1 DbComparator.GT ValueEdges.AFTER
          else Except.ok (used1, gteRes)) with
        | error e => rw [h2] at h; exact absurd h (by simp)
        | ok p2 =>
          obtain ⟨used2, startRes⟩ := p2
          rw [h2] at h
          cases h
          exact ⟨used2, _, _, rfl⟩

lemma extractGtGte_shape (fieldQueries : List DbQuery) (used : Finset Nat)
    (filter : IDbFilterStatement) (r : ExtractResult)
    (h : extractGtGte fieldQueries used filter = Except.ok r) :
    ∃ u s e, r = ⟨u, [s], [e]⟩ := by
  unfold extractGtGte at h
  split at h
  · exact absurd h (by simp)
  · cases hval : toIndexFieldValue filter.value with
    | error e => rw [hval] at h; exact absurd h (by simp)
    | ok value =>
      rw [hval] at h
      dsimp only at h
      cases h1 : findRangeEdge fieldQueries used DbComparator.LTE ValueEdges.AFTER with
      | error e => rw [h1] at h; exact absurd h (by simp)
      | ok p1 =>
        obtain ⟨used1, lteRes⟩ := p1
        rw [h1] at h
        dsimp only at h
        cases h2 : (if isNullish lteRes then
            findRangeEdge fieldQueries used1 DbComparator.LT ValueEdges.NONE
          else Except.ok (used1, lteRes)) with
        | error e => rw [h2] at h; exact absurd h (by simp)
        | ok p2 =>
          obtain ⟨used2, endRes⟩ := p2
          rw [h2] at h
          cases h
          exact ⟨used2, _, _, rfl⟩

lemma extractRanges_lengths (queries : List DbQuery) (indexField : String)
    (r : ExtractResult) (h : extractRanges queries indexField = Except.ok r) :
    r.rangeStarts.length = r.rangeEndings.length := by
  cases hfq : queries.filter fun q => dbQueryToDottedField q == indexField with
  | nil =>
    rw [extractRanges_nil queries indexField hfq] at h
    cases h
    rfl
  | cons best rest =>
    rw [extractRanges_cons queries indexField best rest hfq] at h
    split at h
    · exact absurd h (by simp)
    · split at h
      case _ => exact (extractEqIn_shape _ _ _ h).2
      case _ => exact (extractEqIn_shape _ _ _ h).2
      case _ =>
        obtain ⟨u, s, e, rfl⟩ := extractLtLte_shape _ _ _ _ h
        rfl
      case _ =>
        obtain ⟨u, s, e, rfl⟩ := extractLtLte_shape _ _ _ _ h
        rfl
      case _ =>
        obtain ⟨u, s, e, rfl⟩ := extractGtGte_shape _ _ _ _ h
        rfl
      case _ =>
        obtain ⟨u, s, e, rfl⟩ := extractGtGte_shape _ _ _ _ h
        rfl
      case _ => exact absurd h (by simp)

lemma findRangeEdge_used (queries : List DbQuery) (used : Finset Nat)
    (comparator : DbComparator) (edge : ValueEdges) (used2 : Finset Nat)
    (res : Option RangeValue)
    (h : findRangeEdge queries used comparator edge = Except.ok (used2, res)) :
    ∀ i ∈ used2, i ∈ used ∨ ∃ q ∈ queries, q.id = i := by
  rw [findRangeEdge_spec] at h
  cases hf : findFirstUnused queries used comparator with
  | none =>
    rw [hf] at h
    dsimp only at h
    cases h
    exact fun i hi => Or.inl hi
  | some q =>
    rw [hf] at h
    dsimp only at h
    split at h
    · exact absurd h (by simp)
    · cases hs : scalarValue (getFilterStatement q).value with
      | none => rw [hs] at h; exact absurd h (by simp)
      | some v =>
        rw [hs] at h
        cases h
        intro i hi
        rcases Finset.mem_insert.mp hi with hq | hq
        · exact Or.inr ⟨q, List.mem_of_find?_eq_some hf, hq.symm⟩
        · exact Or.inl hq

lemma extractLtLte_used (fieldQueries : List DbQuery) (used : Finset Nat)
    (filter : IDbFilterStatement) (r : ExtractResult)
    (h : extractLtLte fieldQueries used filter = Except.ok r) :
    ∀ i ∈ r.usedQueries, i ∈ used ∨ ∃ q ∈ fieldQueries, q.id = i := by
  unfold extractLtLte at h
  split at h
  · exact absurd h (by simp)
  · cases hval : toIndexFieldValue filter.value with
    | error e => rw [hval] at h; exact absurd h (by simp)
    | ok value =>
      rw [hval] at h
      dsimp only at h
      cases h1 : findRangeEdge fieldQueries used DbComparator.GTE ValueEdges.NONE with
      | error e => rw [h1] at h; exact absurd h (by simp)
      | ok p1 =>
        obtain ⟨used1, gteRes⟩ := p1
        rw [h1] at h
        dsimp only at h
        have hu1 := findRangeEdge_used _ _ _ _ _ _ h1
        cases h2 : (if isNullish gteRes then
            findRangeEdge fieldQueries used1 DbComparator.GT ValueEdges.AFTER
          else Except.ok (used1, gteRes)) with
        | error e => rw [h2] at h; exact absurd h (by simp)
        | ok p2 =>
          obtain ⟨used2, startRes⟩ := p2
          rw [h2] at h
          cases h
          have hu2 : ∀ i ∈ used2, i ∈ used1 ∨ ∃ q ∈ fieldQueries, q.id = i := by
            by_cases hn : isNullish gteRes = true
            · rw [hn] at h2
              simp only [if_true] at h2
              exact findRangeEdge_used _ _ _ _ _ _ h2
            · rw [Bool.not_eq_true] at hn
              rw [hn] at h2
              simp only [Bool.false_eq_true, if_false] at h2
              cases h2
              exact fun i hi => Or.inl hi
          intro i hi
          rcases hu2 i hi with hi1 | hq
          · rcases hu1 i hi1 with hi0 | hq
            · exact Or.inl hi0
            · exact Or.inr hq
          · exact Or.inr hq

lemma extractGtGte_used (fieldQueries : List DbQuery) (used : Finset Nat)
    (filter : IDbFilterStatement) (r : ExtractResult)
    (h : extractGtGte fieldQueries used filter = Except.ok r) :
    ∀ i ∈ r.usedQueries, i ∈ used ∨ ∃ q ∈ fieldQueries, q.id = i := by
  unfold extractGtGte at h
  split at h
  · exact absurd h (by simp)
  · cases hval : toIndexFieldValue filter.value with
    | error e => rw [hval] at h; exact absurd h (by simp)
    | ok value =>
      rw [hval] at h
      dsimp only at h
      cases h1 : findRangeEdge fieldQueries used DbComparator.LTE ValueEdges.AFTER with
      | error e => rw [h1] at h; exact absurd h (by simp)
      | ok p1 =>
        obtain ⟨used1, lteRes⟩ := p1
        rw [h1] at h
        dsimp only at h
        have hu1 := findRangeEdge_used _ _ _ _ _ _ h1
        cases h2 : (if isNullish lteRes then
            findRangeEdge fieldQueries used1 DbComparator.LT ValueEdges.NONE
          else Except.ok (used1, lteRes)) with
        | error e => rw [h2] at h; exact absurd h (by simp)
        | ok p2 =>
          obtain ⟨used2, endRes⟩ := p2
          rw [h2] at h
          cases h
          have hu2 : ∀ i ∈ used2, i ∈ used1 ∨ ∃ q ∈ fieldQueries, q.id = i := by
            by_cases hn : isNullish lteRes = true
            · rw [hn] at h2
              simp only [if_true] at h2
              exact findRangeEdge_used _ _ _ _ _ _ h2
            · rw [Bool.not_eq_true] at hn
              rw [hn] at h2
              simp only [Bool.false_eq_true, if_false] at h2
              cases h2
              exact fun i hi => Or.inl hi
          intro i hi
          rcases hu2 i hi with hi1 | hq
          · rcases hu1 i hi1 with hi0 | hq
            · exact Or.inl hi0
            · exact Or.inr hq
          · exact Or.inr hq

lemma extractRanges_used (queries : List DbQuery) (indexField : String)
    (r : ExtractResult) (h : extractRanges queries indexField = Except.ok r) :
    ∀ i ∈ r.usedQueries, ∃ q ∈ queries, q.id = i ∧ dbQueryToDottedField q = indexField := by
  cases hfq : queries.filter fun q => dbQueryToDottedField q == indexField with
  | nil =>
    rw [extractRanges_nil queries indexField hfq] at h
    cases h
    intro i hi
    exact absurd hi (by simp)
  | cons best rest =>
    have hmem : ∀ q ∈ best :: rest, q ∈ queries ∧ dbQueryToDottedField q = indexField := by
      intro q hq
      rw [← hfq] at hq
      have := List.mem_filter.mp hq
      exact ⟨this.1, by simpa using this.2⟩
    have hbest : best.id ∈ ({best.id} : Finset Nat) := Finset.mem_singleton_self _
    rw [extractRanges_cons queries indexField best rest hfq] at h
    split at h
    · exact absurd h (by simp)
    · have translate : ∀ i, (i ∈ ({best.id} : Finset Nat) ∨ ∃ q ∈ best :: rest, q.id = i) →
          ∃ q ∈ queries, q.id = i ∧ dbQueryToDottedField q = indexField := by
        intro i hi
        rcases hi with hi | ⟨q, hq, hqi⟩
        · refine ⟨best, (hmem best (List.mem_cons_self _ _)).1, ?_,
            (hmem best (List.mem_cons_self _ _)).2⟩
          simpa using (Finset.mem_singleton.mp hi).symm
        · exact ⟨q, (hmem q hq).1, hqi, (hmem q hq).2⟩
      split at h
      case _ =>
        intro i hi
        rw [(extractEqIn_shape _ _ _ h).1] at hi
        exact translate i (Or.inl hi)
      case _ =>
        intro i hi
        rw [(extractEqIn_shape _ _ _ h).1] at hi
        exact translate i (Or.inl hi)
      case _ =>
        intro i hi
        rcases extractLtLte_used _ _ _ _ h i hi with h1 | h1
        · exact translate i (Or.inl h1)
        · exact translate i (Or.inr h1)
      case _ =>
        intro i hi
        rcases extractLtLte_used _ _ _ _ h i hi with h1 | h1
        · exact translate i (Or.inl h1)
        · exact translate i (Or.inr h1)
      case _ =>
        intro i hi
        rcases extractGtGte_used _ _ _ _ h i hi with h1 | h1
        · exact translate i (Or.inl h1)
        · exact translate i (Or.inr h1)
      case _ =>
        intro i hi
        rcases extractGtGte_used _ _ _ _ h i hi with h1 | h1
        · exact translate i (Or.inl h1)
        · exact translate i (Or.inr h1)
      case _ => exact absurd h (by simp)

lemma mem_insertBySpecificity (a q : DbQuery) (l : List DbQuery) :
    a ∈ insertBySpecificity q l ↔ a = q ∨ a ∈ l := by
  induction l with
  | nil => simp [insertBySpecificity]
  | cons x xs ih =>
    simp only [insertBySpecificity]
    split
    · simp only [List.mem_cons, ih]
      try tauto
    · simp only [List.mem_cons]
      try tauto

lemma mem_sortBySpecificity (a : DbQuery) (l : List DbQuery) :
    a ∈ sortBySpecificity l ↔ a ∈ l := by
  induction l with
  | nil => simp [sortBySpecificity]
  | cons x xs ih =>
    simp only [sortBySpecificity, mem_insertBySpecificity, ih, List.mem_cons]

/-! ### Facts about the composer -/

lemma cartesianProduct_length {α : Type} (ls : List (List α)) :
    (cartesianProduct ls).length = (ls.map List.length).prod := by
  induction ls with
  | nil => simp [cartesianProduct]
  | cons l rest ih =>
    simp only [cartesianProduct, List.length_flatMap, List.map_map, List.map_cons,
      List.prod_cons]
    have : (fun x => ((cartesianProduct rest).map fun t => x :: t).length) ∘ id =
        fun _ : α => (cartesianProduct rest).length := by
      funext x
      simp
    simp only [Function.comp_def, List.length_map]
    rw [List.map_const', List.sum_replicate, smul_eq_mul, ih]

lemma getIndexRangesLoop_lengths (sorted : List DbQuery) (fields : List String)
    (used : Finset Nat) (starts ends : List (List RangeValue))
    (h : getIndexRangesLoop sorted fields = Except.ok (used, starts, ends)) :
    starts.map List.length = ends.map List.length := by
  induction fields generalizing used starts ends with
  | nil =>
    simp only [getIndexRangesLoop] at h
    cases h
    rfl
  | cons f restFields ih =>
    simp only [getIndexRangesLoop] at h
    cases hx : extractRanges sorted f with
    | error e => rw [hx] at h; exact absurd h (by simp)
    | ok result =>
      rw [hx] at h
      dsimp only at h
      split at h
      · cases h
        rfl
      · cases hrec : getIndexRangesLoop sorted restFields with
        | error e => rw [hrec] at h; exact absurd h (by simp)
        | ok triple =>
          obtain ⟨used1, starts1, ends1⟩ := triple
          rw [hrec] at h
          cases h
          have hlen := extractRanges_lengths sorted f result hx
          simp [hlen, ih _ _ _ hrec]

lemma getIndexRangesLoop_used (sorted : List DbQuery) (fields : List String)
    (used : Finset Nat) (starts ends : List (List RangeValue))
    (h : getIndexRangesLoop sorted fields = Except.ok (used, starts, ends)) :
    ∀ i ∈ used, ∃ q ∈ sorted, q.id = i ∧ dbQueryToDottedField q ∈ fields := by
  induction fields generalizing used starts ends with
  | nil =>
    simp only [getIndexRangesLoop] at h
    cases h
    intro i hi
    exact absurd hi (by simp)
  | cons f restFields ih =>
    simp only [getIndexRangesLoop] at h
    cases hx : extractRanges sorted f with
    | error e => rw [hx] at h; exact absurd h (by simp)
    | ok result =>
      rw [hx] at h
      dsimp only at h
      split at h
      · cases h
        intro i hi
        exact absurd hi (by simp)
      · cases hrec : getIndexRangesLoop sorted restFields with
        | error e => rw [hrec] at h; exact absurd h (by simp)
        | ok triple =>
          obtain ⟨used1, starts1, ends1⟩ := triple
          rw [hrec] at h
          cases h
          intro i hi
          rcases Finset.mem_union.mp hi with hi | hi
          · obtain ⟨q, hq, hqi, hqf⟩ := extractRanges_used sorted f result hx i hi
            exact ⟨q, hq, hqi, by simp [hqf]⟩
          · obtain ⟨q, hq, hqi, hqf⟩ := ih _ _ _ hrec i hi
            exact ⟨q, hq, hqi, by simp [hqf]⟩

lemma getIndexRangesLoop_empty_used (sorted : List DbQuery) (fields : List String)
    (used : Finset Nat) (ends : List (List RangeValue))
    (h : getIndexRangesLoop sorted fields = Except.ok (used, [], ends)) :
    used = ∅ ∧ ends = [] := by
  cases fields with
  | nil =>
    simp only [getIndexRangesLoop] at h
    cases h
    exact ⟨rfl, rfl⟩
  | cons f restFields =>
    simp only [getIndexRangesLoop] at h
    cases hx : extractRanges sorted f with
    | error e => rw [hx] at h; exact absurd h (by simp)
    | ok result =>
      rw [hx] at h
      dsimp only at h
      split at h
      · cases h
        exact ⟨rfl, rfl⟩
      · cases hrec : getIndexRangesLoop sorted restFields with
        | error e => rw [hrec] at h; exact absurd h (by simp)
        | ok triple =>
          obtain ⟨used1, starts1, ends1⟩ := triple
          rw [hrec] at h
          cases h

lemma getIndexRanges_eq (dbQueries : List DbQuery) (indexFields : List String)
    (used : Finset Nat) (starts ends : List (List RangeValue))
    (hloop : getIndexRangesLoop (getQueriesThatCanUseIndex dbQueries) indexFields =
      Except.ok (used, starts, ends)) :
    getIndexRanges dbQueries indexFields =
      if starts.isEmpty then Except.ok ⟨used, []⟩
      else Except.ok ⟨used, List.zipWith (fun s e => ⟨s, e⟩)
        (cartesianProduct starts) (cartesianProduct ends)⟩ := by
  unfold getIndexRanges
  rw [hloop]

lemma getIndexRanges_used (dbQueries : List DbQuery) (indexFields : List String)
    (plan : PlanResult) (h : getIndexRanges dbQueries indexFields = Except.ok plan) :
    ∀ i ∈ plan.usedQueries, ∃ q ∈ dbQueries, q.id = i ∧
      dbQueryToDottedField q ∈ indexFields := by
  unfold getIndexRanges at h
  cases hloop : getIndexRangesLoop (getQueriesThatCanUseIndex dbQueries) indexFields with
  | error e => rw [hloop] at h; exact absurd h (by simp)
  | ok triple =>
    obtain ⟨used, starts, ends⟩ := triple
    rw [hloop] at h
    dsimp only at h
    have husedeq : plan.usedQueries = used := by
      split at h
      · cases h; rfl
      · cases h; rfl
    intro i hi
    rw [husedeq] at hi
    obtain ⟨q, hq, hqi, hqf⟩ := getIndexRangesLoop_used _ _ _ _ _ hloop i hi
    have : q ∈ dbQueries := by
      have h1 := (mem_sortBySpecificity _ _).mp hq
      exact (List.mem_filter.mp h1).1
    exact ⟨q, this, hqi, hqf⟩

lemma getIndexRangesLoop_append (sorted : List DbQuery)
    (fields1 : List String) (f : String) (fields2 : List String)
    (r0 : ExtractResult)
    (h1 : ∀ g ∈ fields1, ∃ rg, extractRanges sorted g = Except.ok rg ∧ rg.rangeStarts ≠ [])
    (hf : extractRanges sorted f = Except.ok r0)
    (hempty : r0.rangeStarts = []) :
    getIndexRangesLoop sorted (fields1 ++ f :: fields2) =
      getIndexRangesLoop sorted fields1 := by
  induction fields1 with
  | nil =>
    simp only [List.nil_append, getIndexRangesLoop, hf]
    rw [if_pos]
    simp [hempty]
  | cons g gs ih =>
    obtain ⟨rg, hg, hgne⟩ := h1 g (List.mem_cons_self _ _)
    have ihh := ih fun x hx => h1 x (List.mem_cons_of_mem _ hx)
    have hne : rg.rangeStarts.isEmpty = false := by simp [List.isEmpty_iff, hgne]
    simp only [List.cons_append, getIndexRangesLoop, hg, hne, Bool.false_eq_true, if_false]
    rw [List.append_eq, ihh]

/-! ### Facts about deduplication -/

lemma deduplicate_sublist (getKey : IIndexEntry → Except String IndexFieldValue)
    (l : List IIndexEntry) :
    ∀ (seen : List IndexFieldValue) (r : List IIndexEntry),
      deduplicate getKey seen l = Except.ok r → r.Sublist l := by
  induction l with
  | nil =>
    intro seen r h
    simp only [deduplicate] at h
    cases h
    exact List.Sublist.refl _
  | cons e rest ih =>
    intro seen r h
    simp only [deduplicate] at h
    cases hk : getKey e with
    | error err => rw [hk] at h; exact absurd h (by simp)
    | ok k =>
      rw [hk] at h
      dsimp only at h
      split at h
      · exact List.Sublist.cons e (ih seen r h)
      · cases hrec : deduplicate getKey (k :: seen) rest with
        | error err => rw [hrec] at h; exact absurd h (by simp)
        | ok tail =>
          rw [hrec] at h
          cases h
          exact List.Sublist.cons₂ e (ih _ _ hrec)

lemma deduplicate_ids (getKey : IIndexEntry → Except String IndexFieldValue)
    (l : List IIndexEntry) :
    ∀ (seen : List IndexFieldValue) (r : List IIndexEntry),
      deduplicate getKey seen l = Except.ok r →
      (r.map fun e => (getKey e).toOption).Nodup ∧
        ∀ e ∈ r, ∃ k, getKey e = Except.ok k ∧ k ∉ seen := by
  induction l with
  | nil =>
    intro seen r h
    simp only [deduplicate] at h
    cases h
    exact ⟨List.nodup_nil, by simp⟩
  | cons e rest ih =>
    intro seen r h
    simp only [deduplicate] at h
    cases hk : getKey e with
    | error err => rw [hk] at h; exact absurd h (by simp)
    | ok k =>
      rw [hk] at h
      dsimp only at h
      split at h
      · exact ih seen r h
      · rename_i hnotseen
        cases hrec : deduplicate getKey (k :: seen) rest with
        | error err => rw [hrec] at h; exact absurd h (by simp)
        | ok tail =>
          rw [hrec] at h
          cases h
          obtain ⟨hnodup, havoid⟩ := ih _ _ hrec
          constructor
          · refine List.Nodup.cons ?_ hnodup
            intro hmemids
            obtain ⟨e2, he2, hid2⟩ := List.mem_map.mp hmemids
            obtain ⟨k2, hk2, hk2notin⟩ := havoid e2 he2
            simp only [hk2, hk, Except.toOption] at hid2
            cases hid2
            exact hk2notin (List.mem_cons_self _ _)
          · intro e2 he2
            rcases List.mem_cons.mp he2 with he2 | he2
            · subst he2
              refine ⟨k, hk, ?_⟩
              simpa using hnotseen
            · obtain ⟨k2, hk2, hk2notin⟩ := havoid e2 he2
              exact ⟨k2, hk2, fun hmem => hk2notin (List.mem_cons_of_mem _ hmem)⟩

lemma deduplicate_keeps_first (getKey : IIndexEntry → Except String IndexFieldValue)
    (l : List IIndexEntry) :
    ∀ (seen : List IndexFieldValue) (r : List IIndexEntry),
      deduplicate getKey seen l = Except.ok r →
      ∀ i < l.length, ∀ k, getKey (l.getD i default) = Except.ok k → k ∉ seen →
        (∀ j < i, (getKey (l.getD j default)).toOption ≠
          (getKey (l.getD i default)).toOption) →
        l.getD i default ∈ r := by
  induction l with
  | nil =>
    intro seen r h i hi
    exact absurd hi (by simp)
  | cons e rest ih =>
    intro seen r h i hi k hk hknot hfirst
    simp only [deduplicate] at h
    cases hk0 : getKey e with
    | error err => rw [hk0] at h; exact absurd h (by simp)
    | ok k0 =>
      rw [hk0] at h
      dsimp only at h
      cases i with
      | zero =>
        simp only [List.getD_cons_zero] at hk ⊢
        have hkk : k0 = k := by
          injection hk0.symm.trans hk
        subst hkk
        split at h
        · rename_i hseen
          exact absurd (by simpa using hseen) hknot
        · cases hrec : deduplicate getKey (k0 :: seen) rest with
          | error err => rw [hrec] at h; exact absurd h (by simp)
          | ok tail =>
            rw [hrec] at h
            cases h
            simp
      | succ i0 =>
        simp only [List.getD_cons_succ] at hk hfirst ⊢
        have hi0 : i0 < rest.length := by simpa using hi
        have hfirst0 : ∀ j < i0, (getKey (rest.getD j default)).toOption ≠
            (getKey (rest.getD i0 default)).toOption := by
          intro j hj
          have := hfirst (j + 1) (by omega)
          simpa using this
        have hne0 : k ≠ k0 := by
          have := hfirst 0 (by omega)
          simp only [List.getD_cons_zero, List.getD_cons_succ] at this
          rw [hk0, hk] at this
          simp only [Except.toOption] at this
          intro hcontra
          exact this (by rw [hcontra])
        split at h
        · exact ih seen r h i0 hi0 k hk hknot hfirst0
        · cases hrec : deduplicate getKey (k0 :: seen) rest with
          | error err => rw [hrec] at h; exact absurd h (by simp)
          | ok tail =>
            rw [hrec] at h
            cases h
            refine List.mem_cons_of_mem _ ?_
            refine ih _ _ hrec i0 hi0 k hk ?_ hfirst0
            intro hmem
            rcases List.mem_cons.mp hmem with hc | hc
            · exact hne0 hc
            · exact hknot hc


/-! ### Facts about the modelled key order -/

lemma KeyAtom.ltb_irrefl (a : KeyAtom) : KeyAtom.ltb a a = false := by
  cases a with
  | bool b => cases b <;> rfl
  | int n =>
    show decide (n < n) = false
    simp
  | str s =>
    show decide (s < s) = false
    simp
  | negInf => rfl
  | null => rfl
  | undef => rfl
  | posInf => rfl

lemma KeyAtom.ltb_asymm (a b : KeyAtom) (h : KeyAtom.ltb a b = true) :
    KeyAtom.ltb b a = false := by
  cases a <;> cases b <;> try rfl
  case bool.bool x y =>
    cases x <;> cases y <;> simp_all [KeyAtom.ltb]
  case int.int m n =>
    replace h : m < n := by
      have : decide (m < n) = true := h
      exact of_decide_eq_true this
    show decide (n < m) = false
    simp only [decide_eq_false_iff_not]
    omega
  case str.str s t =>
    replace h : s < t := by
      have : decide (s < t) = true := h
      exact of_decide_eq_true this
    show decide (t < s) = false
    simp only [decide_eq_false_iff_not]
    exact lt_asymm h
  all_goals
    simp [KeyAtom.ltb, KeyAtom.rank] at h

/-! ### Claim-level description of the range-comparator bounds

The following definitions restate, in the words of the (amended) claim,
how a range-comparator anchor obtains its missing bound: consult the first
unused complementary clause; a consulted clause is marked used even when
its exact-value contribution is `null`, in which case the nullish
coalescing of the source skips the contribution and falls through to the
next alternative or to the default rail. They are compared with the code
path (`extractLtLte`, `extractGtGte`) below. -/

/-- Lower-bound fallback of an `LT`/`LTE` anchor once no usable `GTE`
bound is available: edge after the first unused `GT` clause value, else
the default lower rail. `none` when the consulted clause has a non-scalar
operand (the code throws there). -/
def startEdgeGtCase (fieldQueries : List DbQuery) (used : Finset Nat)
    (rail : RangeValue) : Option (Finset Nat × RangeValue) :=
  match findFirstUnused fieldQueries used DbComparator.GT with
  | some qt =>
    match scalarValue (getFilterStatement qt).value with
    | none => none
    | some w => some (insert qt.id used, getValueEdgeAfter w)
  | none => some (used, rail)

/-- Lower bound of an `LT`/`LTE` anchor: the exact value of the first
unused `GTE` clause when it is not `null` (the clause is marked used
either way), else the `GT` fallback. -/
def startEdgeSpec (fieldQueries : List DbQuery) (used : Finset Nat)
    (anchorValue : IndexFieldValue) : Option (Finset Nat × RangeValue) :=
  let rail : RangeValue := if anchorValue = IndexFieldValue.null then RangeValue.negInf
    else getValueEdgeAfter IndexFieldValue.undef
  match findFirstUnused fieldQueries used DbComparator.GTE with
  | some qg =>
    match scalarValue (getFilterStatement qg).value with
    | none => none
    | some w =>
      if w = IndexFieldValue.null then startEdgeGtCase fieldQueries (insert qg.id used) rail
      else some (insert qg.id used, RangeValue.val w)
  | none => startEdgeGtCase fieldQueries used rail

/-- Upper-bound fallback of a `GT`/`GTE` anchor once no `LTE` bound is
available: the exact value of the first unused `LT` clause when it is not
`null` (the clause is marked used either way), else the default upper
rail. -/
def endEdgeLtCase (fieldQueries : List DbQuery) (used : Finset Nat)
    (rail : RangeValue) : Option (Finset Nat × RangeValue) :=
  match findFirstUnused fieldQueries used DbComparator.LT with
  | some ql =>
    match scalarValue (getFilterStatement ql).value with
    | none => none
    | some w =>
      if w = IndexFieldValue.null then some (insert ql.id used, rail)
      else some (insert ql.id used, RangeValue.val w)
  | none => some (used, rail)

/-- Upper bound of a `GT`/`GTE` anchor: edge after the first unused `LTE`
clause value when present, else the `LT` fallback. -/
def endEdgeSpec (fieldQueries : List DbQuery) (used : Finset Nat)
    (anchorValue : IndexFieldValue) : Option (Finset Nat × RangeValue) :=
  let rail : RangeValue := if anchorValue = IndexFieldValue.null then
      getValueEdgeAfter IndexFieldValue.null
    else RangeValue.posInf
  match findFirstUnused fieldQueries used DbComparator.LTE with
  | some ql =>
    match scalarValue (getFilterStatement ql).value with
    | none => none
    | some w => some (insert ql.id used, getValueEdgeAfter w)
  | none => endEdgeLtCase fieldQueries used rail

lemma isNullish_val (w : IndexFieldValue) :
    isNullish (some (RangeValue.val w)) = decide (w = IndexFieldValue.null) := by
  cases w <;> rfl

lemma startEdgeGtCase_of_findRangeEdge (fieldQueries : List DbQuery)
    (used1 u2 : Finset Nat) (startRes : Option RangeValue) (rail : RangeValue)
    (h2 : findRangeEdge fieldQueries used1 DbComparator.GT ValueEdges.AFTER =
      Except.ok (u2, startRes)) :
    startEdgeGtCase fieldQueries used1 rail =
      some (u2, if isNullish startRes then rail else startRes.getD rail) := by
  rw [findRangeEdge_spec] at h2
  unfold startEdgeGtCase
  cases hf : findFirstUnused fieldQueries used1 DbComparator.GT with
  | none =>
    rw [hf] at h2
    dsimp only at h2
    cases h2
    rfl
  | some qt =>
    rw [hf] at h2
    dsimp only at h2
    split at h2
    · exact absurd h2 (by simp)
    · cases hs : scalarValue (getFilterStatement qt).value with
      | none => rw [hs] at h2; exact absurd h2 (by simp)
      | some w =>
        rw [hs] at h2
        cases h2
        dsimp only
        rw [hs]
        rfl

lemma endEdgeLtCase_of_findRangeEdge (fieldQueries : List DbQuery)
    (used1 u2 : Finset Nat) (endRes : Option RangeValue) (rail : RangeValue)
    (h2 : findRangeEdge fieldQueries used1 DbComparator.LT ValueEdges.NONE =
      Except.ok (u2, endRes)) :
    endEdgeLtCase fieldQueries used1 rail =
      some (u2, if isNullish endRes then rail else endRes.getD rail) := by
  rw [findRangeEdge_spec] at h2
  unfold endEdgeLtCase
  cases hf : findFirstUnused fieldQueries used1 DbComparator.LT with
  | none =>
    rw [hf] at h2
    dsimp only at h2
    cases h2
    rfl
  | some ql =>
    rw [hf] at h2
    dsimp only at h2
    split at h2
    · exact absurd h2 (by simp)
    · cases hs : scalarValue (getFilterStatement ql).value with
      | none => rw [hs] at h2; exact absurd h2 (by simp)
      | some w =>
        rw [hs] at h2
        cases h2
        dsimp only
        rw [hs]
        dsimp only
        by_cases hw : w = IndexFieldValue.null
        · subst hw
          rfl
        · rw [if_neg hw]
          have : isNullish (some (edgeApply ValueEdges.NONE w)) = false := by
            simp [edgeApply, isNullish_val, hw]
          rw [this]
          rfl

lemma extractLtLte_spec (fieldQueries : List DbQuery) (used : Finset Nat)
    (filter : IDbFilterStatement) (r : ExtractResult)
    (h : extractLtLte fieldQueries used filter = Except.ok r) :
    ∃ value, toIndexFieldValue filter.value = Except.ok value ∧
      ∃ u s, startEdgeSpec fieldQueries used value = some (u, s) ∧
        r = ⟨u, [s], [if filter.comparator = DbComparator.LT then RangeValue.val value
          else getValueEdgeAfter value]⟩ := by
  unfold extractLtLte at h
  split at h
  · exact absurd h (by simp)
  · cases hval : toIndexFieldValue filter.value with
    | error e => rw [hval] at h; exact absurd h (by simp)
    | ok value =>
      rw [hval] at h
      dsimp only at h
      refine ⟨value, rfl, ?_⟩
      cases h1 : findRangeEdge fieldQueries used DbComparator.GTE ValueEdges.NONE with
      | error e => rw [h1] at h; exact absurd h (by simp)
      | ok p1 =>
        obtain ⟨used1, gteRes⟩ := p1
        rw [h1] at h
        dsimp only at h
        rw [findRangeEdge_spec] at h1
        unfold startEdgeSpec
        cases hf : findFirstUnused fieldQueries used DbComparator.GTE with
        | none =>
          rw [hf] at h1
          dsimp only at h1
          cases h1
          dsimp only
          simp only [isNullish, eq_self_iff_true, if_true] at h
          cases h2 : findRangeEdge fieldQueries used DbComparator.GT ValueEdges.AFTER with
          | error e => rw [h2] at h; exact absurd h (by simp)
          | ok p2 =>
            obtain ⟨used2, startRes⟩ := p2
            rw [h2] at h
            dsimp only at h
            cases h
            rw [startEdgeGtCase_of_findRangeEdge _ _ _ _ _ h2]
            exact ⟨used2, _, rfl, rfl⟩
        | some qg =>
          rw [hf] at h1
          dsimp only at h1
          split at h1
          · exact absurd h1 (by simp)
          · cases hs : scalarValue (getFilterStatement qg).value with
            | none => rw [hs] at h1; exact absurd h1 (by simp)
            | some w =>
              rw [hs] at h1
              cases h1
              dsimp only
              rw [hs]
              dsimp only
              by_cases hw : w = IndexFieldValue.null
              · subst hw
                rw [if_pos rfl]
                simp only [isNullish, edgeApply, getValueEdgeAfter, eq_self_iff_true,
                  if_true] at h
                cases h2 : findRangeEdge fieldQueries (insert qg.id used)
                    DbComparator.GT ValueEdges.AFTER with
                | error e => rw [h2] at h; exact absurd h (by simp)
                | ok p2 =>
                  obtain ⟨used2, startRes⟩ := p2
                  rw [h2] at h
                  dsimp only at h
                  cases h
                  rw [startEdgeGtCase_of_findRangeEdge _ _ _ _ _ h2]
                  exact ⟨used2, _, rfl, rfl⟩
              · rw [if_neg hw]
                have hcond : isNullish (some (edgeApply ValueEdges.NONE w)) = false := by
                  simp [edgeApply, isNullish_val, hw]
                rw [hcond] at h
                simp only [Bool.false_eq_true, if_false] at h
                cases h
                refine ⟨insert qg.id used, RangeValue.val w, rfl, ?_⟩
                have : isNullish (some (edgeApply ValueEdges.NONE w)) = false := hcond
                simp only [edgeApply] at this
                simp [this, edgeApply]

lemma extractGtGte_spec (fieldQueries : List DbQuery) (used : Finset Nat)
    (filter : IDbFilterStatement) (r : ExtractResult)
    (h : extractGtGte fieldQueries used filter = Except.ok r) :
    ∃ value, toIndexFieldValue filter.value = Except.ok value ∧
      ∃ u e, endEdgeSpec fieldQueries used value = some (u, e) ∧
        r = ⟨u, [if filter.comparator = DbComparator.GTE then RangeValue.val value
          else getValueEdgeAfter value], [e]⟩ := by
  unfold extractGtGte at h
  split at h
  · exact absurd h (by simp)
  · cases hval : toIndexFieldValue filter.value with
    | error e => rw [hval] at h; exact absurd h (by simp)
    | ok value =>
      rw [hval] at h
      dsimp only at h
      refine ⟨value, rfl, ?_⟩
      cases h1 : findRangeEdge fieldQueries used DbComparator.LTE ValueEdges.AFTER with
      | error e => rw [h1] at h; exact absurd h (by simp)
      | ok p1 =>
        obtain ⟨used1, lteRes⟩ := p1
        rw [h1] at h
        dsimp only at h
        rw [findRangeEdge_spec] at h1
        unfold endEdgeSpec
        cases hf : findFirstUnused fieldQueries used DbComparator.LTE with
        | none =>
          rw [hf] at h1
          dsimp only at h1
          cases h1
          dsimp only
          simp only [isNullish, eq_self_iff_true, if_true] at h
          cases h2 : findRangeEdge fieldQueries used DbComparator.LT ValueEdges.NONE with
          | error e => rw [h2] at h; exact absurd h (by simp)
          | ok p2 =>
            obtain ⟨used2, endRes⟩ := p2
            rw [h2] at h
            dsimp only at h
            cases h
            rw [endEdgeLtCase_of_findRangeEdge _ _ _ _ _ h2]
            exact ⟨used2, _, rfl, rfl⟩
        | some ql =>
          rw [hf] at h1
          dsimp only at h1
          split at h1
          · exact absurd h1 (by simp)
          · cases hs : scalarValue (getFilterStatement ql).value with
            | none => rw [hs] at h1; exact absurd h1 (by simp)
            | some w =>
              rw [hs] at h1
              cases h1
              dsimp only
              rw [hs]
              dsimp only
              have hcond : isNullish (some (edgeApply ValueEdges.AFTER w)) = false := rfl
              rw [hcond] at h
              simp only [Bool.false_eq_true, if_false] at h
              cases h
              refine ⟨insert ql.id used, getValueEdgeAfter w, rfl, ?_⟩
              have hcond2 : isNullish (some (getValueEdgeAfter w)) = false := rfl
              simp [hcond2, edgeApply]

lemma zipWith_getD {α β γ : Type} (f : α → β → γ) (as : List α) (bs : List β)
    (da : α) (db : β) (dc : γ) (i : Nat) (hi : i < (List.zipWith f as bs).length) :
    (List.zipWith f as bs).getD i dc = f (as.getD i da) (bs.getD i db) := by
  have hlen := List.length_zipWith f as bs
  have hia : i < as.length := by rw [hlen] at hi; omega
  have hib : i < bs.length := by rw [hlen] at hi; omega
  rw [List.getD_eq_getElem _ _ hi, List.getD_eq_getElem _ _ hia,
    List.getD_eq_getElem _ _ hib]
  exact List.getElem_zipWith

lemma getIndexRanges_composition (dbQueries : List DbQuery) (indexFields : List String)
    (used : Finset Nat) (starts ends : List (List RangeValue)) (plan : PlanResult)
    (hloop : getIndexRangesLoop (getQueriesThatCanUseIndex dbQueries) indexFields =
      Except.ok (used, starts, ends))
    (hplan : getIndexRanges dbQueries indexFields = Except.ok plan) :
    starts.map List.length = ends.map List.length ∧
    (cartesianProduct starts).length = (cartesianProduct ends).length ∧
    (starts = [] → plan.ranges = [] ∧ plan.usedQueries = ∅) ∧
    (starts ≠ [] → plan.usedQueries = used ∧
      plan.ranges.length = (starts.map List.length).prod) ∧
    (∀ i < plan.ranges.length, plan.ranges.getD i ⟨[], []⟩ =
      ⟨(cartesianProduct starts).getD i [], (cartesianProduct ends).getD i []⟩) := by
  have hmaps := getIndexRangesLoop_lengths _ _ _ _ _ hloop
  have hprods : (cartesianProduct starts).length = (cartesianProduct ends).length := by
    rw [cartesianProduct_length, cartesianProduct_length, hmaps]
  rw [getIndexRanges_eq _ _ _ _ _ hloop] at hplan
  refine ⟨hmaps, hprods, ?_, ?_, ?_⟩
  · intro hnil
    subst hnil
    simp only [List.isEmpty_nil, if_true] at hplan
    cases hplan
    obtain ⟨hu, _⟩ := getIndexRangesLoop_empty_used _ _ _ _ hloop
    exact ⟨rfl, hu⟩
  · intro hne
    rw [if_neg (by simp [List.isEmpty_iff, hne])] at hplan
    cases hplan
    refine ⟨rfl, ?_⟩
    simp only [List.length_zipWith, hprods, cartesianProduct_length, hmaps]
    simp [← hmaps]
  · intro i hi
    by_cases hne : starts = []
    · subst hne
      simp only [List.isEmpty_nil, if_true] at hplan
      cases hplan
      exact absurd hi (by simp)
    · rw [if_neg (by simp [List.isEmpty_iff, hne])] at hplan
      cases hplan
      exact zipWith_getD _ _ _ _ _ _ i hi

lemma deduplicate_all_ok (getKey : IIndexEntry → Except String IndexFieldValue)
    (l : List IIndexEntry) :
    ∀ (seen : List IndexFieldValue) (r : List IIndexEntry),
      deduplicate getKey seen l = Except.ok r →
      ∀ e ∈ l, ∃ k, getKey e = Except.ok k := by
  induction l with
  | nil =>
    intro seen r _ e he
    exact absurd he (by simp)
  | cons e0 rest ih =>
    intro seen r h e he
    simp only [deduplicate] at h
    cases hk : getKey e0 with
    | error err => rw [hk] at h; exact absurd h (by simp)
    | ok k =>
      rw [hk] at h
      dsimp only at h
      rcases List.mem_cons.mp he with he | he
      · subst he
        exact ⟨k, hk⟩
      · split at h
        · exact ih seen r h e he
        · cases hrec : deduplicate getKey (k :: seen) rest with
          | error err => rw [hrec] at h; exact absurd h (by simp)
          | ok tail =>
            rw [hrec] at h
            exact ih _ _ hrec e he

/-! ### Claim statements -/

/-- The reading of claim C1 that an `EQ` anchor contributes the boundary
pair of its operand taken as one (singleton) value: at most the singleton
pair plus the extra `undefinedSymbol` pair would be pushed, so an `EQ`
anchor could never yield more than two start boundaries. -/
def eqSingletonClaim : Prop :=
  ∀ (q : DbQuery) (r : ExtractResult),
    (getFilterStatement q).comparator = DbComparator.EQ →
    extractRanges [q] (dbQueryToDottedField q) = Except.ok r →
    r.rangeStarts.length ≤ 2

/-- C1 counterexample: an `EQ` clause whose operand is the array
`[1, 2, 3]` makes `extractRanges` push one boundary pair per array
element (three pairs), because the source wraps only non-array operands
into singletons; `EQ` with an array operand behaves like `IN`, refuting
the singleton-value reading of the claim. -/
theorem C1_counterexample : ¬ eqSingletonClaim := by
  intro hclaim
  have h3 := hclaim
    ⟨0, "a", ⟨DbComparator.EQ,
      FilterValue.arr [FilterAtom.int 1, FilterAtom.int 2, FilterAtom.int 3]⟩⟩
    ⟨{0},
      [RangeValue.val (IndexFieldValue.int 1), RangeValue.val (IndexFieldValue.int 2),
        RangeValue.val (IndexFieldValue.int 3)],
      [getValueEdgeAfter (IndexFieldValue.int 1), getValueEdgeAfter (IndexFieldValue.int 2),
        getValueEdgeAfter (IndexFieldValue.int 3)]⟩
    rfl (by decide)
  exact absurd h3 (by decide)

/-- C1 (amended): for an `EQ` or `IN` anchor clause on an indexed field,
`extractRanges` treats the operand as a list of values — the array
elements when the operand is an array, for `EQ` as well as for `IN`, else
the singleton operand — and pushes, for each converted operand value `v`,
the boundary pair `(v, edgeAfter v)`; when some operand value is `null`
it additionally pushes the pair `(UndefinedMarker, edgeAfter
UndefinedMarker)` after the value pairs; and an `IN` clause whose operand
is not an array fails with the invalid-operand error before any pair is
pushed. -/
theorem C1_eq_in_extraction (queries : List DbQuery) (indexField : String)
    (best : DbQuery) (rest : List DbQuery)
    (hfq : (queries.filter fun q => dbQueryToDottedField q == indexField) = best :: rest)
    (hcmp : (getFilterStatement best).comparator = DbComparator.EQ ∨
      (getFilterStatement best).comparator = DbComparator.IN) :
    ((getFilterStatement best).comparator = DbComparator.IN →
      isArrayValue (getFilterStatement best).value = false →
      extractRanges queries indexField =
        Except.error "The argument to the in comparator should be an array") ∧
    (∀ ivals : List IndexFieldValue,
      mapExceptAtoms (operandList (getFilterStatement best).value) = Except.ok ivals →
      ((getFilterStatement best).comparator = DbComparator.EQ ∨
        isArrayValue (getFilterStatement best).value = true) →
      extractRanges queries indexField = Except.ok ⟨{best.id},
        ivals.map RangeValue.val ++
          (if ivals.any (fun v => decide (v = IndexFieldValue.null)) then
            [RangeValue.val IndexFieldValue.undef] else []),
        ivals.map getValueEdgeAfter ++
          (if ivals.any (fun v => decide (v = IndexFieldValue.null)) then
            [getValueEdgeAfter IndexFieldValue.undef] else [])⟩) := by
  constructor
  · intro hin harr
    rw [extractRanges_cons _ _ _ _ hfq, if_pos ⟨hin, by simp [harr]⟩]
  · intro ivals hmap hok
    have hcond : ¬ ((getFilterStatement best).comparator = DbComparator.IN ∧
        ¬ (isArrayValue (getFilterStatement best).value = true)) := by
      rcases hok with hok | hok
      · rintro ⟨hin, _⟩
        rw [hok] at hin
        cases hin
      · rintro ⟨_, hna⟩
        exact hna hok
    rw [extractRanges_cons _ _ _ _ hfq, if_neg hcond]
    rcases hcmp with hc | hc
    · rw [hc]
      exact extractEqIn_spec _ _ _ hmap
    · rw [hc]
      exact extractEqIn_spec _ _ _ hmap

/-- C1 witness: `{in: [null, "x"]}` on field `a` pushes the pairs for
`null` and `"x"` and then the `undefinedSymbol` pair. -/
theorem C1_eq_in_extraction_witness :
    extractRanges
        [⟨0, "a", ⟨DbComparator.IN, FilterValue.arr [FilterAtom.null, FilterAtom.str "x"]⟩⟩]
        "a" =
      Except.ok ⟨{0},
        [RangeValue.val IndexFieldValue.null, RangeValue.val (IndexFieldValue.str "x"),
          RangeValue.val IndexFieldValue.undef],
        [getValueEdgeAfter IndexFieldValue.null, getValueEdgeAfter (IndexFieldValue.str "x"),
          getValueEdgeAfter IndexFieldValue.undef]⟩ := by
  have h := (C1_eq_in_extraction
      [⟨0, "a", ⟨DbComparator.IN, FilterValue.arr [FilterAtom.null, FilterAtom.str "x"]⟩⟩]
      "a"
      ⟨0, "a", ⟨DbComparator.IN, FilterValue.arr [FilterAtom.null, FilterAtom.str "x"]⟩⟩
      [] rfl (Or.inr rfl)).2
      [IndexFieldValue.null, IndexFieldValue.str "x"] rfl (Or.inr rfl)
  rw [h]
  decide

/-- The reading of claim C2 that for a `GT`/`GTE` anchor with no `LTE`
clause present, a complementary `LT` clause always contributes its exact
value as the end of the produced range (being marked used). -/
def ltBoundClaim : Prop :=
  ∀ (qGte qLt : DbQuery) (r : ExtractResult) (w : IndexFieldValue),
    dbQueryToDottedField qGte = dbQueryToDottedField qLt →
    (getFilterStatement qGte).comparator = DbComparator.GTE →
    (getFilterStatement qLt).comparator = DbComparator.LT →
    extractRanges [qGte, qLt] (dbQueryToDottedField qGte) = Except.ok r →
    qLt.id ∈ r.usedQueries →
    toIndexFieldValue (getFilterStatement qLt).value = Except.ok w →
    r.rangeEndings = [RangeValue.val w]

/-- C2 counterexample: for `{gte: 1, lt: null}` on one field the anchor is
the `GTE` clause, the complementary `LT` clause is found and marked used,
but its value `null` is swallowed by the nullish coalescing of the source
(`end = findRangeEdge(LTE) ?? findRangeEdge(LT)` followed by
`end ?? rangeTail`), so the produced range ends at `PositiveInfinity`
rather than at the `LT` value. -/
theorem C2_counterexample : ¬ ltBoundClaim := by
  intro hclaim
  have h := hclaim ⟨0, "a", ⟨DbComparator.GTE, FilterValue.int 1⟩⟩
      ⟨1, "a", ⟨DbComparator.LT, FilterValue.null⟩⟩
      ⟨insert 1 {0}, [RangeValue.val (IndexFieldValue.int 1)], [RangeValue.posInf]⟩
      IndexFieldValue.null rfl rfl rfl (by decide) (by decide) rfl
  exact absurd h (by decide)

/-- C2 (amended): for every range-comparator anchor clause, `extractRanges`
produces exactly one `(start, end)` pair. For an `LT`/`LTE` anchor the end
is the anchor value (exclusive) or its edge-after (inclusive), and the
start is the exact value of the first unused `GTE` clause when that value
is not `null`, else the edge after the first remaining unused `GT` clause
value, else the default lower rail (`NegativeInfinity` when the anchor
value is `null`, otherwise `edgeAfter(UndefinedMarker)`); a consulted
complementary clause is marked used even when its `null` value is skipped
by the nullish coalescing. Symmetrically for a `GT`/`GTE` anchor the end
is the edge after the first unused `LTE` value, else the exact value of
the first unused `LT` clause when not `null`, else the default upper rail
(`edgeAfter(null)` when the anchor value is `null`, otherwise
`PositiveInfinity`). In particular `{gte: 1, lt: 10}` yields the single
range `[1, 10)` with both clauses in the used set (see the witness). -/
theorem C2_range_pairing (queries : List DbQuery) (indexField : String)
    (best : DbQuery) (rest : List DbQuery) (r : ExtractResult)
    (hfq : (queries.filter fun q => dbQueryToDottedField q == indexField) = best :: rest)
    (hr : extractRanges queries indexField = Except.ok r) :
    (((getFilterStatement best).comparator = DbComparator.LT ∨
        (getFilterStatement best).comparator = DbComparator.LTE) →
      ∃ value, toIndexFieldValue (getFilterStatement best).value = Except.ok value ∧
        ∃ u s, startEdgeSpec (best :: rest) {best.id} value = some (u, s) ∧
          r = ⟨u, [s], [if (getFilterStatement best).comparator = DbComparator.LT then
            RangeValue.val value else getValueEdgeAfter value]⟩) ∧
    (((getFilterStatement best).comparator = DbComparator.GT ∨
        (getFilterStatement best).comparator = DbComparator.GTE) →
      ∃ value, toIndexFieldValue (getFilterStatement best).value = Except.ok value ∧
        ∃ u e, endEdgeSpec (best :: rest) {best.id} value = some (u, e) ∧
          r = ⟨u, [if (getFilterStatement best).comparator = DbComparator.GTE then
            RangeValue.val value else getValueEdgeAfter value], [e]⟩) := by
  rw [extractRanges_cons _ _ _ _ hfq] at hr
  constructor
  · intro hcmp
    have hcond : ¬ ((getFilterStatement best).comparator = DbComparator.IN ∧
        ¬ (isArrayValue (getFilterStatement best).value = true)) := by
      rintro ⟨hin, _⟩
      rcases hcmp with hc | hc <;> rw [hc] at hin <;> cases hin
    rw [if_neg hcond] at hr
    rcases hcmp with hc | hc
    · rw [hc] at hr
      exact extractLtLte_spec _ _ _ _ hr
    · rw [hc] at hr
      exact extractLtLte_spec _ _ _ _ hr
  · intro hcmp
    have hcond : ¬ ((getFilterStatement best).comparator = DbComparator.IN ∧
        ¬ (isArrayValue (getFilterStatement best).value = true)) := by
      rintro ⟨hin, _⟩
      rcases hcmp with hc | hc <;> rw [hc] at hin <;> cases hin
    rw [if_neg hcond] at hr
    rcases hcmp with hc | hc
    · rw [hc] at hr
      exact extractGtGte_spec _ _ _ _ hr
    · rw [hc] at hr
      exact extractGtGte_spec _ _ _ _ hr

/-- C2 witness: `{gte: 1, lt: 10}` on one field produces the single range
`[1, 10)` with both clauses consumed, and the theorem applies to it. -/
theorem C2_range_pairing_witness :
    (extractRanges [⟨0, "a", ⟨DbComparator.GTE, FilterValue.int 1⟩⟩,
        ⟨1, "a", ⟨DbComparator.LT, FilterValue.int 10⟩⟩] "a" =
      Except.ok ⟨insert 1 {0}, [RangeValue.val (IndexFieldValue.int 1)],
        [RangeValue.val (IndexFieldValue.int 10)]⟩) ∧
    (∃ value, toIndexFieldValue (getFilterStatement
        (⟨0, "a", ⟨DbComparator.GTE, FilterValue.int 1⟩⟩ : DbQuery)).value =
        Except.ok value ∧
      ∃ u e, endEdgeSpec [⟨0, "a", ⟨DbComparator.GTE, FilterValue.int 1⟩⟩,
          ⟨1, "a", ⟨DbComparator.LT, FilterValue.int 10⟩⟩] {0} value = some (u, e) ∧
        (⟨insert 1 {0}, [RangeValue.val (IndexFieldValue.int 1)],
          [RangeValue.val (IndexFieldValue.int 10)]⟩ : ExtractResult) =
          ⟨u, [if (getFilterStatement
              (⟨0, "a", ⟨DbComparator.GTE, FilterValue.int 1⟩⟩ : DbQuery)).comparator =
              DbComparator.GTE then
            RangeValue.val value else getValueEdgeAfter value], [e]⟩) := by
  refine ⟨by decide, ?_⟩
  exact (C2_range_pairing
      [⟨0, "a", ⟨DbComparator.GTE, FilterValue.int 1⟩⟩,
        ⟨1, "a", ⟨DbComparator.LT, FilterValue.int 10⟩⟩] "a"
      ⟨0, "a", ⟨DbComparator.GTE, FilterValue.int 1⟩⟩
      [⟨1, "a", ⟨DbComparator.LT, FilterValue.int 10⟩⟩]
      ⟨insert 1 {0}, [RangeValue.val (IndexFieldValue.int 1)],
        [RangeValue.val (IndexFieldValue.int 10)]⟩
      rfl (by decide)).2 (Or.inr rfl)

/-- C3: for every clause set and declared index field order,
`getIndexRanges` stops without error at the first indexed field for which
`extractRanges` yields no constraint: the plan equals the plan computed
from the constrained prefix of fields alone (fields after the gap
contribute no boundaries), and every clause in the returned used set
addresses a field of that prefix, so clauses addressing only later fields
are never marked used. -/
theorem C3_prefix_only (dbQueries : List DbQuery)
    (fields1 : List String) (f : String) (fields2 : List String) (r0 : ExtractResult)
    (h1 : ∀ g ∈ fields1, ∃ rg, extractRanges (getQueriesThatCanUseIndex dbQueries) g =
      Except.ok rg ∧ rg.rangeStarts ≠ [])
    (hf : extractRanges (getQueriesThatCanUseIndex dbQueries) f = Except.ok r0)
    (hempty : r0.rangeStarts = []) :
    getIndexRanges dbQueries (fields1 ++ f :: fields2) = getIndexRanges dbQueries fields1 ∧
    (∀ plan, getIndexRanges dbQueries (fields1 ++ f :: fields2) = Except.ok plan →
      ∀ i ∈ plan.usedQueries, ∃ q ∈ dbQueries, q.id = i ∧
        dbQueryToDottedField q ∈ fields1) := by
  have heq : getIndexRanges dbQueries (fields1 ++ f :: fields2) =
      getIndexRanges dbQueries fields1 := by
    unfold getIndexRanges
    rw [getIndexRangesLoop_append _ _ _ _ _ h1 hf hempty]
  refine ⟨heq, ?_⟩
  intro plan hplan i hi
  rw [heq] at hplan
  exact getIndexRanges_used _ _ _ hplan i hi

/-- C3 witness: an index on `[a, b, c]` with clauses only on `a` and `c`
plans exactly as the index `[a]` would: one range constrained on `a`
alone, and only the clause on `a` used. -/
theorem C3_prefix_only_witness :
    (getIndexRanges [⟨0, "a", ⟨DbComparator.EQ, FilterValue.int 1⟩⟩,
        ⟨1, "c", ⟨DbComparator.EQ, FilterValue.int 2⟩⟩] ["a", "b", "c"] =
      getIndexRanges [⟨0, "a", ⟨DbComparator.EQ, FilterValue.int 1⟩⟩,
        ⟨1, "c", ⟨DbComparator.EQ, FilterValue.int 2⟩⟩] ["a"]) ∧
    (getIndexRanges [⟨0, "a", ⟨DbComparator.EQ, FilterValue.int 1⟩⟩,
        ⟨1, "c", ⟨DbComparator.EQ, FilterValue.int 2⟩⟩] ["a", "b", "c"] =
      Except.ok ⟨{0}, [⟨[RangeValue.val (IndexFieldValue.int 1)],
        [getValueEdgeAfter (IndexFieldValue.int 1)]⟩]⟩) := by
  have h1 : ∀ g ∈ ["a"], ∃ rg,
      extractRanges (getQueriesThatCanUseIndex
        [⟨0, "a", ⟨DbComparator.EQ, FilterValue.int 1⟩⟩,
          ⟨1, "c", ⟨DbComparator.EQ, FilterValue.int 2⟩⟩]) g = Except.ok rg ∧
      rg.rangeStarts ≠ [] := by
    intro g hg
    rw [List.mem_singleton] at hg
    subst hg
    exact ⟨⟨{0}, [RangeValue.val (IndexFieldValue.int 1)],
      [getValueEdgeAfter (IndexFieldValue.int 1)]⟩, by decide, by decide⟩
  have h : getIndexRanges [⟨0, "a", ⟨DbComparator.EQ, FilterValue.int 1⟩⟩,
        ⟨1, "c", ⟨DbComparator.EQ, FilterValue.int 2⟩⟩] ["a", "b", "c"] =
      getIndexRanges [⟨0, "a", ⟨DbComparator.EQ, FilterValue.int 1⟩⟩,
        ⟨1, "c", ⟨DbComparator.EQ, FilterValue.int 2⟩⟩] ["a"] :=
    (C3_prefix_only
      [⟨0, "a", ⟨DbComparator.EQ, FilterValue.int 1⟩⟩,
        ⟨1, "c", ⟨DbComparator.EQ, FilterValue.int 2⟩⟩]
      ["a"] "b" ["c"] ⟨∅, [], []⟩ h1 (by decide) rfl).1
  refine ⟨h, ?_⟩
  rw [h]
  decide

/-- C4: when at least one indexed field produced constraints,
`getIndexRanges` returns as many ranges as the product of the per-field
boundary-list lengths, and the range at index `i` pairs the `i`-th tuple
of the cartesian product of the per-field start lists with the `i`-th
tuple of the cartesian product of the per-field end lists (lock-step
pairing); when no field produced a constraint it returns zero ranges and
an empty used-clause set. -/
theorem C4_cartesian_lockstep (dbQueries : List DbQuery) (indexFields : List String)
    (used : Finset Nat) (starts ends : List (List RangeValue)) (plan : PlanResult)
    (hloop : getIndexRangesLoop (getQueriesThatCanUseIndex dbQueries) indexFields =
      Except.ok (used, starts, ends))
    (hplan : getIndexRanges dbQueries indexFields = Except.ok plan) :
    (starts ≠ [] →
      plan.ranges.length = (starts.map List.length).prod ∧
      ∀ i < plan.ranges.length, plan.ranges.getD i ⟨[], []⟩ =
        ⟨(cartesianProduct starts).getD i [], (cartesianProduct ends).getD i []⟩) ∧
    (starts = [] → plan.ranges = [] ∧ plan.usedQueries = ∅) := by
  obtain ⟨_, _, hzero, hsome, hget⟩ :=
    getIndexRanges_composition _ _ _ _ _ _ hloop hplan
  exact ⟨fun hne => ⟨(hsome hne).2, hget⟩, hzero⟩

/-- C4 witness: `{in: [1, 2]}` on field `a` and `{eq: 3}` on field `b`
give per-field start lists of lengths 2 and 1, hence 2 composed ranges,
each pairing the matching product tuples. -/
theorem C4_cartesian_lockstep_witness :
    (getIndexRanges [⟨0, "a", ⟨DbComparator.IN,
        FilterValue.arr [FilterAtom.int 1, FilterAtom.int 2]⟩⟩,
        ⟨1, "b", ⟨DbComparator.EQ, FilterValue.int 3⟩⟩] ["a", "b"] =
      Except.ok ⟨insert 0 {1},
        [⟨[RangeValue.val (IndexFieldValue.int 1), RangeValue.val (IndexFieldValue.int 3)],
          [getValueEdgeAfter (IndexFieldValue.int 1), getValueEdgeAfter (IndexFieldValue.int 3)]⟩,
         ⟨[RangeValue.val (IndexFieldValue.int 2), RangeValue.val (IndexFieldValue.int 3)],
          [getValueEdgeAfter (IndexFieldValue.int 2), getValueEdgeAfter (IndexFieldValue.int 3)]⟩]⟩) ∧
    ((⟨insert 0 {1},
        [⟨[RangeValue.val (IndexFieldValue.int 1), RangeValue.val (IndexFieldValue.int 3)],
          [getValueEdgeAfter (IndexFieldValue.int 1), getValueEdgeAfter (IndexFieldValue.int 3)]⟩,
         ⟨[RangeValue.val (IndexFieldValue.int 2), RangeValue.val (IndexFieldValue.int 3)],
          [getValueEdgeAfter (IndexFieldValue.int 2), getValueEdgeAfter (IndexFieldValue.int 3)]⟩]⟩ :
        PlanResult).ranges.length =
      (([[RangeValue.val (IndexFieldValue.int 1), RangeValue.val (IndexFieldValue.int 2)],
        [RangeValue.val (IndexFieldValue.int 3)]] :
          List (List RangeValue)).map List.length).prod) := by
  refine ⟨by decide, ?_⟩
  exact ((C4_cartesian_lockstep
      [⟨0, "a", ⟨DbComparator.IN, FilterValue.arr [FilterAtom.int 1, FilterAtom.int 2]⟩⟩,
        ⟨1, "b", ⟨DbComparator.EQ, FilterValue.int 3⟩⟩] ["a", "b"]
      (insert 0 {1})
      [[RangeValue.val (IndexFieldValue.int 1), RangeValue.val (IndexFieldValue.int 2)],
        [RangeValue.val (IndexFieldValue.int 3)]]
      [[getValueEdgeAfter (IndexFieldValue.int 1), getValueEdgeAfter (IndexFieldValue.int 2)],
        [getValueEdgeAfter (IndexFieldValue.int 3)]]
      ⟨insert 0 {1},
        [⟨[RangeValue.val (IndexFieldValue.int 1), RangeValue.val (IndexFieldValue.int 3)],
          [getValueEdgeAfter (IndexFieldValue.int 1), getValueEdgeAfter (IndexFieldValue.int 3)]⟩,
         ⟨[RangeValue.val (IndexFieldValue.int 2), RangeValue.val (IndexFieldValue.int 3)],
          [getValueEdgeAfter (IndexFieldValue.int 2), getValueEdgeAfter (IndexFieldValue.int 3)]⟩]⟩
      (by decide) (by decide)).1 (by decide)).1

/-- C10: for every query list and field, `extractRanges` returns start and
end lists of equal length (every branch pushes a start and an end
together); consequently the per-field start and end lists collected by
the composer have pairwise equal lengths, the two cartesian products have
the same number of tuples, and every composed range pairs the `i`-th
start tuple with the `i`-th end tuple — the lock-step pairing is total. -/
theorem C10_parallel_boundaries :
    (∀ (queries : List DbQuery) (indexField : String) (r : ExtractResult),
      extractRanges queries indexField = Except.ok r →
      r.rangeStarts.length = r.rangeEndings.length) ∧
    (∀ (dbQueries : List DbQuery) (indexFields : List String)
      (used : Finset Nat) (starts ends : List (List RangeValue)) (plan : PlanResult),
      getIndexRangesLoop (getQueriesThatCanUseIndex dbQueries) indexFields =
        Except.ok (used, starts, ends) →
      getIndexRanges dbQueries indexFields = Except.ok plan →
      starts.map List.length = ends.map List.length ∧
      (cartesianProduct starts).length = (cartesianProduct ends).length ∧
      ∀ i < plan.ranges.length, plan.ranges.getD i ⟨[], []⟩ =
        ⟨(cartesianProduct starts).getD i [], (cartesianProduct ends).getD i []⟩) := by
  constructor
  · exact extractRanges_lengths
  · intro dbQueries indexFields used starts ends plan hloop hplan
    obtain ⟨hmaps, hprods, _, _, hget⟩ :=
      getIndexRanges_composition _ _ _ _ _ _ hloop hplan
    exact ⟨hmaps, hprods, hget⟩

/-- C10 witness: the `{eq: null}` anchor (which pushes the extra
`undefinedSymbol` pair) still yields equally long start and end lists,
and the single-field composition pairs them in lock step. -/
theorem C10_parallel_boundaries_witness :
    ((⟨{0}, [RangeValue.val IndexFieldValue.null, RangeValue.val IndexFieldValue.undef],
      [getValueEdgeAfter IndexFieldValue.null, getValueEdgeAfter IndexFieldValue.undef]⟩ :
        ExtractResult).rangeStarts.length =
      (⟨{0}, [RangeValue.val IndexFieldValue.null, RangeValue.val IndexFieldValue.undef],
      [getValueEdgeAfter IndexFieldValue.null, getValueEdgeAfter IndexFieldValue.undef]⟩ :
        ExtractResult).rangeEndings.length) ∧
    ([[RangeValue.val IndexFieldValue.null, RangeValue.val IndexFieldValue.undef]].map
        List.length =
      [[getValueEdgeAfter IndexFieldValue.null, getValueEdgeAfter IndexFieldValue.undef]].map
        List.length) := by
  constructor
  · exact C10_parallel_boundaries.1
      [⟨0, "a", ⟨DbComparator.EQ, FilterValue.null⟩⟩] "a"
      ⟨{0}, [RangeValue.val IndexFieldValue.null, RangeValue.val IndexFieldValue.undef],
        [getValueEdgeAfter IndexFieldValue.null, getValueEdgeAfter IndexFieldValue.undef]⟩
      (by decide)
  · exact (C10_parallel_boundaries.2
      [⟨0, "a", ⟨DbComparator.EQ, FilterValue.null⟩⟩] ["a"] {0}
      [[RangeValue.val IndexFieldValue.null, RangeValue.val IndexFieldValue.undef]]
      [[getValueEdgeAfter IndexFieldValue.null, getValueEdgeAfter IndexFieldValue.undef]]
      ⟨{0}, [⟨[RangeValue.val IndexFieldValue.null], [getValueEdgeAfter IndexFieldValue.null]⟩,
        ⟨[RangeValue.val IndexFieldValue.undef], [getValueEdgeAfter IndexFieldValue.undef]⟩]⟩
      (by decide) (by decide)).1


lemma scanRequest_fields (indexId : IndexFieldValue) (limit1 : Option Nat)
    (offset1 : Nat) (reverse : Bool) (r : IIndexRange) :
    (scanRequest indexId limit1 offset1 reverse r).offset = offset1 ∧
    (scanRequest indexId limit1 offset1 reverse r).limit = limit1 := by
  unfold scanRequest
  cases reverse <;> simp

lemma performRangeScan_spec (engine : ScanRange → List IIndexEntry)
    (indexId : IndexFieldValue) (maxKeysPerItem : Nat) (reverse : Bool)
    (limit : Option Nat) (offset : Nat) (ranges : List IIndexRange)
    (usedQueries : Finset Nat) (out : RangeScanOutcome)
    (h : performRangeScan engine indexId maxKeysPerItem reverse limit offset ranges
      usedQueries = Except.ok out) :
    out.requests = ranges.map (scanRequest indexId
      (if limitTruthy limit ∧ maxKeysPerItem > 1 then
        limit.map (fun l => l * maxKeysPerItem) else limit)
      (if limitTruthy limit ∧ ranges.length > 1 then 0 else offset) reverse) ∧
    out.usedLimit = (if limitTruthy limit ∧ maxKeysPerItem > 1 then
      limit.map (fun l => l * maxKeysPerItem) else limit) ∧
    out.usedOffset = (if limitTruthy limit ∧ ranges.length > 1 then 0 else offset) ∧
    out.usedQueries = usedQueries ∧
    (maxKeysPerItem > 1 →
      deduplicate getIdentifier [] ((out.requests.map engine).flatten) =
        Except.ok out.entries) ∧
    (¬ maxKeysPerItem > 1 → out.entries = (out.requests.map engine).flatten) := by
  unfold performRangeScan at h
  by_cases hmk : maxKeysPerItem > 1
  · rw [if_pos hmk] at h
    cases hded : deduplicate getIdentifier []
        ((ranges.map (scanRequest indexId
          (if limitTruthy limit ∧ maxKeysPerItem > 1 then
            limit.map (fun l => l * maxKeysPerItem) else limit)
          (if limitTruthy limit ∧ ranges.length > 1 then 0 else offset) reverse)).map
          engine).flatten with
    | error e => rw [hded] at h; exact absurd h (by simp)
    | ok entries =>
      rw [hded] at h
      cases h
      exact ⟨rfl, rfl, rfl, rfl, fun _ => hded, fun hc => absurd hmk hc⟩
  · rw [if_neg hmk] at h
    cases h
    exact ⟨rfl, rfl, rfl, rfl, fun hc => absurd hc hmk, fun _ => rfl⟩

/-- Claim C5 as stated: whenever the range executor is called with more
than one composed range, the offset actually passed to each engine scan
is zero. -/
def multiRangeOffsetClaim : Prop :=
  ∀ (engine : ScanRange → List IIndexEntry) (indexId : IndexFieldValue)
    (maxKeysPerItem : Nat) (reverse : Bool) (limit : Option Nat) (offset : Nat)
    (ranges : List IIndexRange) (usedQueries : Finset Nat) (out : RangeScanOutcome),
    performRangeScan engine indexId maxKeysPerItem reverse limit offset ranges
      usedQueries = Except.ok out →
    ranges.length > 1 →
    ∀ req ∈ out.requests, req.offset = 0

/-- C5 counterexample: with two ranges but no requested limit the source
never enters the `if (limit)` block, so a requested offset of 5 is passed
unchanged to both engine scans; the offset is only discarded when a
non-zero limit is present. -/
theorem C5_counterexample : ¬ multiRangeOffsetClaim := by
  intro hclaim
  have h := hclaim (fun _ => []) (IndexFieldValue.str "idx") 1 false none 5
      [⟨[], []⟩, ⟨[], []⟩] ∅
      ⟨[⟨[RangeValue.val (IndexFieldValue.str "idx")],
          [RangeValue.val (IndexFieldValue.str "idx")], none, 5, false⟩,
        ⟨[RangeValue.val (IndexFieldValue.str "idx")],
          [RangeValue.val (IndexFieldValue.str "idx")], none, 5, false⟩],
        [], ∅, none, 5⟩
      (by decide) (by decide)
      ⟨[RangeValue.val (IndexFieldValue.str "idx")],
        [RangeValue.val (IndexFieldValue.str "idx")], none, 5, false⟩
      (by decide)
  exact absurd h (by decide)

/-- C5 (amended): when a non-zero limit is requested and more than one
range is scanned, the offset passed to each engine scan is zero (the
caller-requested offset is discarded) and the possibly inflated limit is
still applied to each range scan individually; without a requested limit
the caller offset is passed unchanged to every scan. -/
theorem C5_offset_policy (engine : ScanRange → List IIndexEntry)
    (indexId : IndexFieldValue) (maxKeysPerItem : Nat) (reverse : Bool)
    (offset : Nat) (ranges : List IIndexRange) (usedQueries : Finset Nat) :
    (∀ (l : Nat) (out : RangeScanOutcome), l ≠ 0 → ranges.length > 1 →
      performRangeScan engine indexId maxKeysPerItem reverse (some l) offset ranges
        usedQueries = Except.ok out →
      out.usedOffset = 0 ∧ ∀ req ∈ out.requests, req.offset = 0 ∧
        req.limit = some (if maxKeysPerItem > 1 then l * maxKeysPerItem else l)) ∧
    (∀ out : RangeScanOutcome,
      performRangeScan engine indexId maxKeysPerItem reverse none offset ranges
        usedQueries = Except.ok out →
      out.usedOffset = offset ∧ ∀ req ∈ out.requests, req.offset = offset) := by
  constructor
  · intro l out hl hlen hok
    obtain ⟨hreq, _, hoff, _, _, _⟩ := performRangeScan_spec _ _ _ _ _ _ _ _ _ hok
    have htruthy : limitTruthy (some l) = true := by simp [limitTruthy, hl]
    have hoffcond : (limitTruthy (some l) = true ∧ ranges.length > 1) := ⟨htruthy, hlen⟩
    have hoffval : (if limitTruthy (some l) ∧ ranges.length > 1 then 0 else offset) = 0 := by
      rw [if_pos hoffcond]
    have hlimval : (if limitTruthy (some l) ∧ maxKeysPerItem > 1 then
        (some l).map (fun x => x * maxKeysPerItem) else some l) =
        some (if maxKeysPerItem > 1 then l * maxKeysPerItem else l) := by
      by_cases hmk : maxKeysPerItem > 1
      · rw [if_pos ⟨htruthy, hmk⟩, if_pos hmk]
        rfl
      · rw [if_neg (fun hc => hmk hc.2), if_neg hmk]
    refine ⟨by rw [hoff, hoffval], ?_⟩
    intro req hreqmem
    rw [hreq] at hreqmem
    obtain ⟨rg, _, rfl⟩ := List.mem_map.mp hreqmem
    obtain ⟨ho, hli⟩ := scanRequest_fields indexId _ _ reverse rg
    rw [ho, hli, hoffval, hlimval]
    exact ⟨rfl, rfl⟩
  · intro out hok
    obtain ⟨hreq, _, hoff, _, _, _⟩ := performRangeScan_spec _ _ _ _ _ _ _ _ _ hok
    have hoffval : (if limitTruthy none ∧ ranges.length > 1 then 0 else offset) = offset := by
      rw [if_neg]
      rintro ⟨hc, _⟩
      simp [limitTruthy] at hc
    refine ⟨by rw [hoff, hoffval], ?_⟩
    intro req hreqmem
    rw [hreq] at hreqmem
    obtain ⟨rg, _, rfl⟩ := List.mem_map.mp hreqmem
    obtain ⟨ho, _⟩ := scanRequest_fields indexId _ _ reverse rg
    rw [ho, hoffval]

/-- C5 witness: limit 7 with two ranges forces the offset to zero on both
scans while the limit 7 is applied to each of them. -/
theorem C5_offset_policy_witness :
    performRangeScan (fun _ => []) (IndexFieldValue.str "idx") 1 false (some 7) 5
        [⟨[], []⟩, ⟨[], []⟩] ∅ =
      Except.ok ⟨[⟨[RangeValue.val (IndexFieldValue.str "idx")],
          [RangeValue.val (IndexFieldValue.str "idx")], some 7, 0, false⟩,
        ⟨[RangeValue.val (IndexFieldValue.str "idx")],
          [RangeValue.val (IndexFieldValue.str "idx")], some 7, 0, false⟩],
        [], ∅, some 7, 0⟩ ∧
    ((⟨[⟨[RangeValue.val (IndexFieldValue.str "idx")],
          [RangeValue.val (IndexFieldValue.str "idx")], some 7, 0, false⟩,
        ⟨[RangeValue.val (IndexFieldValue.str "idx")],
          [RangeValue.val (IndexFieldValue.str "idx")], some 7, 0, false⟩],
        [], ∅, some 7, 0⟩ : RangeScanOutcome).usedOffset = 0) := by
  refine ⟨by decide, ?_⟩
  exact ((C5_offset_policy (fun _ => []) (IndexFieldValue.str "idx") 1 false 5
      [⟨[], []⟩, ⟨[], []⟩] ∅).1 7
      ⟨[⟨[RangeValue.val (IndexFieldValue.str "idx")],
          [RangeValue.val (IndexFieldValue.str "idx")], some 7, 0, false⟩,
        ⟨[RangeValue.val (IndexFieldValue.str "idx")],
          [RangeValue.val (IndexFieldValue.str "idx")], some 7, 0, false⟩],
        [], ∅, some 7, 0⟩
      (by decide) (by decide) (by decide)).1

/-- C6: against an index with `maxKeysPerItem > 1` the range executor
replaces any requested limit by `limit * maxKeysPerItem` on every issued
scan, and the concatenated scan results are deduplicated by document
identifier (the last key component), keeping the first occurrence of each
identifier — the returned entries form a sublist of the concatenation
with pairwise distinct identifiers containing every first occurrence; for
`maxKeysPerItem ≤ 1` neither inflation nor deduplication happens. -/
theorem C6_multikey_policy (engine : ScanRange → List IIndexEntry)
    (indexId : IndexFieldValue) (maxKeysPerItem : Nat) (reverse : Bool)
    (limit : Option Nat) (offset : Nat) (ranges : List IIndexRange)
    (usedQueries : Finset Nat) (out : RangeScanOutcome)
    (h : performRangeScan engine indexId maxKeysPerItem reverse limit offset ranges
      usedQueries = Except.ok out) :
    (maxKeysPerItem > 1 →
      out.usedLimit = limit.map (fun l => l * maxKeysPerItem) ∧
      (∀ req ∈ out.requests, req.limit = limit.map (fun l => l * maxKeysPerItem)) ∧
      deduplicate getIdentifier [] ((out.requests.map engine).flatten) =
        Except.ok out.entries ∧
      out.entries.Sublist ((out.requests.map engine).flatten) ∧
      (out.entries.map entryId).Nodup ∧
      (∀ i < ((out.requests.map engine).flatten).length,
        (∀ j < i, entryId (((out.requests.map engine).flatten).getD j default) ≠
          entryId (((out.requests.map engine).flatten).getD i default)) →
        ((out.requests.map engine).flatten).getD i default ∈ out.entries)) ∧
    (maxKeysPerItem ≤ 1 →
      out.usedLimit = limit ∧ (∀ req ∈ out.requests, req.limit = limit) ∧
      out.entries = (out.requests.map engine).flatten) := by
  obtain ⟨hreq, hlim, _, _, hded, hnoded⟩ := performRangeScan_spec _ _ _ _ _ _ _ _ _ h
  constructor
  · intro hmk
    have hlimval : (if limitTruthy limit ∧ maxKeysPerItem > 1 then
        limit.map (fun l => l * maxKeysPerItem) else limit) =
        limit.map (fun l => l * maxKeysPerItem) := by
      cases limit with
      | none =>
        rw [if_neg]
        · rfl
        · rintro ⟨hc, _⟩
          simp [limitTruthy] at hc
      | some n =>
        cases n with
        | zero =>
          rw [if_neg]
          · simp
          · rintro ⟨hc, _⟩
            simp [limitTruthy] at hc
        | succ m =>
          rw [if_pos ⟨by simp [limitTruthy], hmk⟩]
    have hdedok := hded hmk
    refine ⟨by rw [hlim, hlimval], ?_, hdedok, ?_, ?_, ?_⟩
    · intro req hreqmem
      rw [hreq] at hreqmem
      obtain ⟨rg, _, rfl⟩ := List.mem_map.mp hreqmem
      obtain ⟨_, hli⟩ := scanRequest_fields indexId _ _ reverse rg
      rw [hli, hlimval]
    · exact deduplicate_sublist getIdentifier _ _ _ hdedok
    · exact (deduplicate_ids getIdentifier _ _ _ hdedok).1
    · intro i hi hfirst
      have hok := deduplicate_all_ok getIdentifier _ _ _ hdedok
        (((out.requests.map engine).flatten).getD i default)
        (by rw [List.getD_eq_getElem _ _ hi]; exact List.getElem_mem hi)
      obtain ⟨k, hk⟩ := hok
      refine deduplicate_keeps_first getIdentifier _ _ _ hdedok i hi k hk
        (by simp) ?_
      intro j hj
      have := hfirst j hj
      simpa [entryId] using this
  · intro hmk
    have hnot : ¬ maxKeysPerItem > 1 := by omega
    have hlimval : (if limitTruthy limit ∧ maxKeysPerItem > 1 then
        limit.map (fun l => l * maxKeysPerItem) else limit) = limit := by
      rw [if_neg (fun hc => hnot hc.2)]
    refine ⟨by rw [hlim, hlimval], ?_, hnoded hnot⟩
    intro req hreqmem
    rw [hreq] at hreqmem
    obtain ⟨rg, _, rfl⟩ := List.mem_map.mp hreqmem
    obtain ⟨_, hli⟩ := scanRequest_fields indexId _ _ reverse rg
    rw [hli, hlimval]

/-- C6 witness: `maxKeysPerItem = 3` with limit 2 issues the scan with
limit 6 and deduplicates the duplicated identifier, keeping the first
occurrence. -/
theorem C6_multikey_policy_witness :
    performRangeScan
        (fun _ => [⟨[IndexFieldValue.str "k", IndexFieldValue.str "d1"], "d1"⟩,
          ⟨[IndexFieldValue.str "k2", IndexFieldValue.str "d1"], "d1"⟩,
          ⟨[IndexFieldValue.str "k3", IndexFieldValue.str "d2"], "d2"⟩])
        (IndexFieldValue.str "idx") 3 false (some 2) 0 [⟨[], []⟩] ∅ =
      Except.ok ⟨[⟨[RangeValue.val (IndexFieldValue.str "idx")],
          [RangeValue.val (IndexFieldValue.str "idx")], some 6, 0, false⟩],
        [⟨[IndexFieldValue.str "k", IndexFieldValue.str "d1"], "d1"⟩,
          ⟨[IndexFieldValue.str "k3", IndexFieldValue.str "d2"], "d2"⟩], ∅, some 6, 0⟩ ∧
    ((⟨[⟨[RangeValue.val (IndexFieldValue.str "idx")],
          [RangeValue.val (IndexFieldValue.str "idx")], some 6, 0, false⟩],
        [⟨[IndexFieldValue.str "k", IndexFieldValue.str "d1"], "d1"⟩,
          ⟨[IndexFieldValue.str "k3", IndexFieldValue.str "d2"], "d2"⟩], ∅, some 6, 0⟩ :
        RangeScanOutcome).usedLimit = (some 2).map (fun l => l * 3)) := by
  refine ⟨by decide, ?_⟩
  exact ((C6_multikey_policy
      (fun _ => [⟨[IndexFieldValue.str "k", IndexFieldValue.str "d1"], "d1"⟩,
        ⟨[IndexFieldValue.str "k2", IndexFieldValue.str "d1"], "d1"⟩,
        ⟨[IndexFieldValue.str "k3", IndexFieldValue.str "d2"], "d2"⟩])
      (IndexFieldValue.str "idx") 3 false (some 2) 0 [⟨[], []⟩] ∅
      ⟨[⟨[RangeValue.val (IndexFieldValue.str "idx")],
          [RangeValue.val (IndexFieldValue.str "idx")], some 6, 0, false⟩],
        [⟨[IndexFieldValue.str "k", IndexFieldValue.str "d1"], "d1"⟩,
          ⟨[IndexFieldValue.str "k3", IndexFieldValue.str "d2"], "d2"⟩], ∅, some 6, 0⟩
      (by decide)).1 (by decide)).1

/-- C7: when the planner composed zero ranges, the full-scan path issues
exactly two sub-scans over the index partition — one from just after the
undefined marker to the partition end, one from the partition start to
just after the undefined marker — and, for an ascending scan,
concatenates them in that order (null and undefined valued entries come
last) before deduplicating by document identifier; a reverse scan
concatenates the two sub-scans in the opposite order. The last conjunct
shows the dispatch: a plan with zero ranges sends `filterUsingIndex`
through `performFullScan`. -/
theorem C7_full_scan (engine : ScanRange → List IIndexEntry)
    (indexName : IndexFieldValue) (reverse : Bool) (out : FullScanOutcome)
    (hout : performFullScan engine indexName reverse = Except.ok out) :
    (reverse = false →
      out.requests = [⟨[RangeValue.val indexName, getValueEdgeAfter IndexFieldValue.undef],
          [getValueEdgeAfter indexName], none, 0, false⟩,
        ⟨[RangeValue.val indexName, RangeValue.val IndexFieldValue.null],
          [RangeValue.val indexName, getValueEdgeAfter IndexFieldValue.undef],
          none, 0, false⟩] ∧
      deduplicate getIdentifier []
        (engine ⟨[RangeValue.val indexName, getValueEdgeAfter IndexFieldValue.undef],
            [getValueEdgeAfter indexName], none, 0, false⟩ ++
          engine ⟨[RangeValue.val indexName, RangeValue.val IndexFieldValue.null],
            [RangeValue.val indexName, getValueEdgeAfter IndexFieldValue.undef],
            none, 0, false⟩) = Except.ok out.entries) ∧
    (reverse = true →
      out.requests = [⟨[getValueEdgeAfter indexName],
          [RangeValue.val indexName, getValueEdgeAfter IndexFieldValue.undef],
          none, 0, true⟩,
        ⟨[RangeValue.val indexName, getValueEdgeAfter IndexFieldValue.undef],
          [RangeValue.val indexName, RangeValue.val IndexFieldValue.null],
          none, 0, true⟩] ∧
      deduplicate getIdentifier []
        (engine ⟨[RangeValue.val indexName, getValueEdgeAfter IndexFieldValue.undef],
            [RangeValue.val indexName, RangeValue.val IndexFieldValue.null],
            none, 0, true⟩ ++
          engine ⟨[getValueEdgeAfter indexName],
            [RangeValue.val indexName, getValueEdgeAfter IndexFieldValue.undef],
            none, 0, true⟩) = Except.ok out.entries) ∧
    (∀ (dbQueries : List DbQuery) (indexFields : List String) (maxKeysPerItem : Nat)
      (limit : Option Nat) (offset : Nat) (plan : PlanResult),
      getIndexRanges dbQueries indexFields = Except.ok plan → plan.ranges = [] →
      scanViaIndex engine dbQueries indexFields indexName maxKeysPerItem limit offset
        reverse = Except.ok (plan.usedQueries, out.requests, out.entries)) := by
  refine ⟨?_, ?_, ?_⟩
  · intro hrev
    subst hrev
    unfold performFullScan at hout
    dsimp only [cond] at hout
    cases hded : deduplicate getIdentifier []
        (engine ⟨[RangeValue.val indexName, getValueEdgeAfter IndexFieldValue.undef],
            [getValueEdgeAfter indexName], none, 0, false⟩ ++
          engine ⟨[RangeValue.val indexName, RangeValue.val IndexFieldValue.null],
            [RangeValue.val indexName, getValueEdgeAfter IndexFieldValue.undef],
            none, 0, false⟩) with
    | error e => rw [hded] at hout; exact absurd hout (by simp)
    | ok entries =>
      rw [hded] at hout
      cases hout
      refine ⟨rfl, ?_⟩
      set_option linter.unnecessarySimpa false in
      simpa using hded
  · intro hrev
    subst hrev
    unfold performFullScan at hout
    dsimp only [cond] at hout
    cases hded : deduplicate getIdentifier []
        (engine ⟨[RangeValue.val indexName, getValueEdgeAfter IndexFieldValue.undef],
            [RangeValue.val indexName, RangeValue.val IndexFieldValue.null],
            none, 0, true⟩ ++
          engine ⟨[getValueEdgeAfter indexName],
            [RangeValue.val indexName, getValueEdgeAfter IndexFieldValue.undef],
            none, 0, true⟩) with
    | error e => rw [hded] at hout; exact absurd hout (by simp)
    | ok entries =>
      rw [hded] at hout
      cases hout
      refine ⟨rfl, ?_⟩
      set_option linter.unnecessarySimpa false in
      simpa using hded
  · intro dbQueries indexFields maxKeysPerItem limit offset plan hplan hranges
    unfold scanViaIndex
    rw [hplan]
    dsimp only
    rw [if_neg (by simp [hranges])]
    rw [hout]

/-- C7 witness: an ascending full scan issues the two partition sub-scans
in the order that puts null and undefined valued entries last, and a plan
with zero ranges dispatches to the full scan. -/
theorem C7_full_scan_witness :
    ((⟨[⟨[RangeValue.val (IndexFieldValue.str "idx"), getValueEdgeAfter IndexFieldValue.undef],
          [getValueEdgeAfter (IndexFieldValue.str "idx")], none, 0, false⟩,
        ⟨[RangeValue.val (IndexFieldValue.str "idx"), RangeValue.val IndexFieldValue.null],
          [RangeValue.val (IndexFieldValue.str "idx"), getValueEdgeAfter IndexFieldValue.undef],
          none, 0, false⟩],
        [⟨[IndexFieldValue.str "idx", IndexFieldValue.str "d1"], "d1"⟩]⟩ :
        FullScanOutcome).requests =
      [⟨[RangeValue.val (IndexFieldValue.str "idx"), getValueEdgeAfter IndexFieldValue.undef],
          [getValueEdgeAfter (IndexFieldValue.str "idx")], none, 0, false⟩,
        ⟨[RangeValue.val (IndexFieldValue.str "idx"), RangeValue.val IndexFieldValue.null],
          [RangeValue.val (IndexFieldValue.str "idx"), getValueEdgeAfter IndexFieldValue.undef],
          none, 0, false⟩]) ∧
    scanViaIndex (fun _ => [⟨[IndexFieldValue.str "idx", IndexFieldValue.str "d1"], "d1"⟩])
        [] [] (IndexFieldValue.str "idx") 1 none 0 false =
      Except.ok ((⟨∅, []⟩ : PlanResult).usedQueries,
        (⟨[⟨[RangeValue.val (IndexFieldValue.str "idx"), getValueEdgeAfter IndexFieldValue.undef],
            [getValueEdgeAfter (IndexFieldValue.str "idx")], none, 0, false⟩,
          ⟨[RangeValue.val (IndexFieldValue.str "idx"), RangeValue.val IndexFieldValue.null],
            [RangeValue.val (IndexFieldValue.str "idx"), getValueEdgeAfter IndexFieldValue.undef],
            none, 0, false⟩],
          [⟨[IndexFieldValue.str "idx", IndexFieldValue.str "d1"], "d1"⟩]⟩ :
          FullScanOutcome).requests,
        (⟨[⟨[RangeValue.val (IndexFieldValue.str "idx"), getValueEdgeAfter IndexFieldValue.undef],
            [getValueEdgeAfter (IndexFieldValue.str "idx")], none, 0, false⟩,
          ⟨[RangeValue.val (IndexFieldValue.str "idx"), RangeValue.val IndexFieldValue.null],
            [RangeValue.val (IndexFieldValue.str "idx"), getValueEdgeAfter IndexFieldValue.undef],
            none, 0, false⟩],
          [⟨[IndexFieldValue.str "idx", IndexFieldValue.str "d1"], "d1"⟩]⟩ :
          FullScanOutcome).entries) := by
  have h := C7_full_scan
      (fun _ => [⟨[IndexFieldValue.str "idx", IndexFieldValue.str "d1"], "d1"⟩])
      (IndexFieldValue.str "idx") false
      ⟨[⟨[RangeValue.val (IndexFieldValue.str "idx"), getValueEdgeAfter IndexFieldValue.undef],
          [getValueEdgeAfter (IndexFieldValue.str "idx")], none, 0, false⟩,
        ⟨[RangeValue.val (IndexFieldValue.str "idx"), RangeValue.val IndexFieldValue.null],
          [RangeValue.val (IndexFieldValue.str "idx"), getValueEdgeAfter IndexFieldValue.undef],
          none, 0, false⟩],
        [⟨[IndexFieldValue.str "idx", IndexFieldValue.str "d1"], "d1"⟩]⟩
      (by decide)
  exact ⟨(h.1 rfl).1, h.2.2 [] [] 1 none 0 ⟨∅, []⟩ (by decide) rfl⟩

/-- C8: `countUsingIndex` fails whenever some clause of the query is not
consumed by index planning, or whenever `maxKeysPerItem > 1`; when neither
precondition is violated it returns the whole prefix partition key count
if zero ranges were composed, and otherwise the sum of the engine key
counts over each composed range with the index identifier prepended to
both boundaries. -/
theorem C8_count_preconditions (engineCount : CountRange → Nat)
    (dbQueries : List DbQuery) (indexFields : List String)
    (indexId : IndexFieldValue) (maxKeysPerItem : Nat) (plan : PlanResult)
    (hnodup : (dbQueries.map DbQuery.id).Nodup)
    (hplan : getIndexRanges dbQueries indexFields = Except.ok plan) :
    (((∃ q ∈ dbQueries, q.id ∉ plan.usedQueries) ∨ maxKeysPerItem > 1) →
      ∃ msg, countUsingIndex engineCount dbQueries indexFields indexId maxKeysPerItem =
        Except.error msg) ∧
    ((∀ q ∈ dbQueries, q.id ∈ plan.usedQueries) → maxKeysPerItem ≤ 1 →
      countUsingIndex engineCount dbQueries indexFields indexId maxKeysPerItem =
        Except.ok (if plan.ranges.isEmpty then
          engineCount ⟨[RangeValue.val indexId], [getValueEdgeAfter indexId]⟩
        else (plan.ranges.map fun r => engineCount
          ⟨RangeValue.val indexId :: r.start, RangeValue.val indexId :: r.stop⟩).sum)) := by
  have hsub : plan.usedQueries ⊆ (dbQueries.map DbQuery.id).toFinset := by
    intro i hi
    obtain ⟨q, hq, hqi, _⟩ := getIndexRanges_used _ _ _ hplan i hi
    rw [List.mem_toFinset]
    exact List.mem_map.mpr ⟨q, hq, hqi⟩
  have hcardids : (dbQueries.map DbQuery.id).toFinset.card = dbQueries.length := by
    rw [List.toFinset_card_of_nodup hnodup, List.length_map]
  unfold countUsingIndex
  rw [hplan]
  dsimp only
  constructor
  · intro hbad
    by_cases hcard : plan.usedQueries.card = dbQueries.length
    · have hfull : plan.usedQueries = (dbQueries.map DbQuery.id).toFinset :=
        Finset.eq_of_subset_of_card_le hsub (by rw [hcardids, hcard])
      rcases hbad with ⟨q, hq, hnotin⟩ | hmk
      · exfalso
        apply hnotin
        rw [hfull, List.mem_toFinset]
        exact List.mem_map.mpr ⟨q, hq, rfl⟩
      · rw [if_neg (fun hc => hc hcard), if_pos hmk]
        exact ⟨"Cannot count using MultiKey index.", rfl⟩
    · rw [if_pos hcard]
      exact ⟨"Cannot count using index. Some field filters cannot be resolved by index.",
        rfl⟩
  · intro hall hmk
    have hrsub : (dbQueries.map DbQuery.id).toFinset ⊆ plan.usedQueries := by
      intro i hi
      rw [List.mem_toFinset] at hi
      obtain ⟨q, hq, hqi⟩ := List.mem_map.mp hi
      rw [← hqi]
      exact hall q hq
    have hcard : plan.usedQueries.card = dbQueries.length := by
      rw [Finset.Subset.antisymm hsub hrsub, hcardids]
    rw [if_neg (fun hc => hc hcard), if_neg (by omega)]
    by_cases hemp : plan.ranges.isEmpty = true
    · rw [if_pos hemp, if_pos hemp]
    · rw [if_neg hemp, if_neg hemp]

/-- C8 witness: one fully consumed `EQ` clause on a single-key index is
counted by one range count (the engine count 7 of the single composed
range). -/
theorem C8_count_preconditions_witness :
    countUsingIndex (fun _ => 7) [⟨0, "a", ⟨DbComparator.EQ, FilterValue.int 1⟩⟩] ["a"]
      (IndexFieldValue.str "idx") 1 = Except.ok 7 := by
  have h := (C8_count_preconditions (fun _ => 7)
      [⟨0, "a", ⟨DbComparator.EQ, FilterValue.int 1⟩⟩] ["a"]
      (IndexFieldValue.str "idx") 1
      ⟨{0}, [⟨[RangeValue.val (IndexFieldValue.int 1)],
        [getValueEdgeAfter (IndexFieldValue.int 1)]⟩]⟩
      (by decide) (by decide)).2 (by decide) (by decide)
  rw [h]
  decide

/-- C9: under the modelled ordered-binary key order, for every encodable
field value `v` the synthetic boundary `edgeAfter(v) = [v,
BinaryInfinityPositive]` compares strictly greater than `v`, and no key
of the encoding domain lies strictly between `v` and `edgeAfter(v)`
unless it has `v` as its first component (a `v`-prefixed key); the atoms
obey the documented chain `NegativeInfinity < null < UndefinedMarker <
real scalars < PositiveInfinity`, both edges are monotone in the value,
and for a real scalar `s` the edge-before boundary sorts below `s`
itself. -/
theorem C9_edge_ordering :
    (∀ v : IndexFieldValue,
      keyLtb [atomOf v] ((getValueEdgeAfter v).flatten) = true) ∧
    (∀ (v : IndexFieldValue) (k : List KeyAtom),
      keyLtb [atomOf v] k = true →
      keyLtb k ((getValueEdgeAfter v).flatten) = true →
      ∃ rest, k = atomOf v :: rest) ∧
    (KeyAtom.ltb KeyAtom.negInf KeyAtom.null = true ∧
      KeyAtom.ltb KeyAtom.null KeyAtom.undef = true ∧
      (∀ v : IndexFieldValue, v ≠ IndexFieldValue.null → v ≠ IndexFieldValue.undef →
        KeyAtom.ltb KeyAtom.undef (atomOf v) = true) ∧
      (∀ v : IndexFieldValue, KeyAtom.ltb (atomOf v) KeyAtom.posInf = true)) ∧
    (∀ v w : IndexFieldValue, KeyAtom.ltb (atomOf v) (atomOf w) = true →
      keyLtb ((getValueEdgeAfter v).flatten) ((getValueEdgeAfter w).flatten) = true ∧
      keyLtb ((getValueEdgeBefore v).flatten) ((getValueEdgeBefore w).flatten) = true) ∧
    (∀ v : IndexFieldValue, v ≠ IndexFieldValue.null → v ≠ IndexFieldValue.undef →
      keyLtb ((getValueEdgeBefore v).flatten) [atomOf v] = true) := by
  have hundefscalar : ∀ v : IndexFieldValue, v ≠ IndexFieldValue.null →
      v ≠ IndexFieldValue.undef → KeyAtom.ltb KeyAtom.undef (atomOf v) = true := by
    intro v h1 h2
    cases v with
    | null => exact absurd rfl h1
    | undef => exact absurd rfl h2
    | int n => rfl
    | str s => rfl
    | bool b => rfl
  refine ⟨?_, ?_, ⟨rfl, rfl, hundefscalar, ?_⟩, ?_, ?_⟩
  · intro v
    show keyLtb [atomOf v] [atomOf v, KeyAtom.posInf] = true
    simp [keyLtb]
  · intro v k h1 h2
    cases k with
    | nil => exact absurd h1 (by simp [keyLtb])
    | cons b bs =>
      change keyLtb (b :: bs) [atomOf v, KeyAtom.posInf] = true at h2
      simp only [keyLtb, Bool.or_eq_true, Bool.and_eq_true, decide_eq_true_eq] at h1 h2
      rcases h1 with hab | ⟨hab, _⟩
      · rcases h2 with hba | ⟨hba, _⟩
        · have := KeyAtom.ltb_asymm _ _ hab
          rw [this] at hba
          cases hba
        · rw [hba] at hab
          rw [KeyAtom.ltb_irrefl] at hab
          cases hab
      · exact ⟨bs, by rw [hab]⟩
  · intro v
    cases v <;> rfl
  · intro v w hab
    constructor
    · show keyLtb [atomOf v, KeyAtom.posInf] [atomOf w, KeyAtom.posInf] = true
      simp [keyLtb, hab]
    · show keyLtb [KeyAtom.undef, atomOf v] [KeyAtom.undef, atomOf w] = true
      simp [keyLtb, hab, KeyAtom.ltb_irrefl]
  · intro v h1 h2
    show keyLtb [KeyAtom.undef, atomOf v] [atomOf v] = true
    simp [keyLtb, hundefscalar v h1 h2]

/-- C9 witness: the key `[5, "x"]` lies strictly between the value `5` and
`edgeAfter(5)` and indeed starts with `5`; the chain, monotonicity and
edge-before facts hold at concrete scalars. -/
theorem C9_edge_ordering_witness :
    (∃ rest, ([KeyAtom.int 5, KeyAtom.str "x"] : List KeyAtom) =
      atomOf (IndexFieldValue.int 5) :: rest) ∧
    KeyAtom.ltb KeyAtom.undef (atomOf (IndexFieldValue.int 5)) = true ∧
    keyLtb ((getValueEdgeAfter (IndexFieldValue.int 1)).flatten)
      ((getValueEdgeAfter (IndexFieldValue.int 2)).flatten) = true ∧
    keyLtb ((getValueEdgeBefore (IndexFieldValue.int 5)).flatten)
      [atomOf (IndexFieldValue.int 5)] = true :=
  ⟨C9_edge_ordering.2.1 (IndexFieldValue.int 5) [KeyAtom.int 5, KeyAtom.str "x"]
      (by decide) (by decide),
    C9_edge_ordering.2.2.1.2.2.1 (IndexFieldValue.int 5) (by decide) (by decide),
    (C9_edge_ordering.2.2.2.1 (IndexFieldValue.int 1) (IndexFieldValue.int 2)
      (by decide)).1,
    C9_edge_ordering.2.2.2.2 (IndexFieldValue.int 5) (by decide) (by decide)⟩
